import Mathlib

/-!
Verification development for the in-memory job lifecycle manager of the
Test_PLAYE backend (`backend/app.py`).

Modelling conventions, chosen to mirror the Python source:

* Wall-clock timestamps are stored by the code as strings produced by
  `time.strftime("%Y-%m-%dT%H:%M:%SZ", time.gmtime())` and read back through
  `_job_time_to_epoch`, which round-trips such strings to their epoch value
  (and yields `0.0` for `None`/unparsable input).  We model a timestamp
  directly by its epoch value (`Nat`); an absent timestamp is `Option.none`
  and `_job_time_to_epoch` becomes `Option.getD 0` composed over that.
* Python dicts keyed by strings are modelled as association lists kept in
  insertion order (`_jobs` as a `List JobRecord` carrying its key inside the
  record, `_jobs_by_idempotency` as a `List (String × String)` with
  replace-on-insert semantics).
* Python truthiness of an optional string (`if payload.idempotencyKey:`)
  is `some k` with `k ≠ ""`.
* Monotonic elapsed durations (`time.perf_counter` differences) are modelled
  as rationals, and the float constant `JOB_RUN_TIMEOUT_SECONDS = 8.0` as the
  rational `8`.
* The `BackgroundTasks.add_task` handoff and the progress of each background
  execution are modelled by two queues in the server state: `tasks` holds
  identifiers whose background path has not yet entered its first locked
  section (`_process_job` before calling `_run_detect`), `running` holds
  identifiers whose executor call is in flight, awaiting the second locked
  section.  The executor itself is external: its outcome and measured
  duration are universally quantified parameters of the second phase.
-/

namespace TestPlaye

/-- Module-level constant `JOBS_MAX_ITEMS = 200` from `backend/app.py`. -/
def JOBS_MAX_ITEMS : Nat := 200

/-- Module-level constant `JOBS_TTL_SECONDS = 1800` from `backend/app.py`. -/
def JOBS_TTL_SECONDS : Nat := 1800

/-- Module-level constant `JOB_RUN_TIMEOUT_SECONDS = 8.0` from `backend/app.py`. -/
def JOB_RUN_TIMEOUT_SECONDS : ℚ := 8

/-- The status literals of `JobStatusLiteral`. -/
inductive JobStatus where
  | pending
  | running
  | done
  | failed
  | canceled
  | timeout
deriving DecidableEq, Repr

/-- The set `{"done", "failed", "canceled", "timeout"}` used by `_cleanup_jobs`
and in the spec's notion of a terminal state. -/
def JobStatus.isTerminal : JobStatus → Bool
  | .done => true
  | .failed => true
  | .canceled => true
  | .timeout => true
  | _ => false

/-- Pydantic model `DetectedObject`. -/
structure DetectedObject where
  x : ℚ
  y : ℚ
  width : ℚ
  height : ℚ
  label : String
  score : ℚ
deriving DecidableEq, Repr

/-- Pydantic model `DetectResponse`, the opaque success payload of a job. -/
structure DetectResponse where
  objects : List DetectedObject
  modelVersion : String
  latencyMs : ℚ
  requestId : String
deriving DecidableEq, Repr

/-- Pydantic model `JobRecord`.  Timestamps are epoch values (see the file
header); `createdAt` is always set at creation. -/
structure JobRecord where
  jobId : String
  status : JobStatus
  task : String
  createdAt : Nat
  startedAt : Option Nat := none
  finishedAt : Option Nat := none
  error : Option String := none
  result : Option DetectResponse := none
  idempotencyKey : Option String := none
deriving DecidableEq, Repr

/-- Pydantic model `JobCreateRequest` before the `Literal` constraint; the
constraint itself is `jobCreateRequestWellFormed` below. -/
structure JobCreateRequest where
  task : String
  imageBase64 : String
  minScore : ℚ := 35 / 100
  debugSleepMs : Int := 0
  idempotencyKey : Option String := none
deriving DecidableEq, Repr

/-- The `task : Literal["detect-objects"]` annotation on `JobCreateRequest`:
FastAPI/pydantic request validation admits exactly this task value, and it
runs before `create_job` is invoked. -/
def jobCreateRequestWellFormed (p : JobCreateRequest) : Bool :=
  p.task == "detect-objects"

/-- Body of `JobCreateResponse` (minus the per-call `requestId`). -/
structure JobCreateResponse where
  jobId : String
  status : JobStatus
  acceptedAt : Nat
deriving DecidableEq, Repr

/-- Body of `JobStatusResponse` (minus the per-call `requestId`), the record
view produced by `_to_job_status_response`. -/
structure JobStatusView where
  jobId : String
  status : JobStatus
  task : String
  createdAt : Nat
  startedAt : Option Nat
  finishedAt : Option Nat
  error : Option String
deriving DecidableEq, Repr

/-- Body of `JobResultResponse` (the stored result payload plus the job id). -/
structure JobResultResponse where
  jobId : String
  objects : List DetectedObject
  modelVersion : String
  latencyMs : ℚ
  requestId : String
deriving DecidableEq, Repr

/-- An `ApiError` raised through `HTTPException` (minus the per-call
`requestId` and the `details` dict). -/
structure ApiErr where
  statusCode : Nat
  code : String
  message : String
deriving DecidableEq, Repr

/-- Projection `_to_job_status_response` (without the fresh `requestId`). -/
def toJobStatusView (r : JobRecord) : JobStatusView :=
  { jobId := r.jobId, status := r.status, task := r.task, createdAt := r.createdAt,
    startedAt := r.startedAt, finishedAt := r.finishedAt, error := r.error }

/-- Python `value or default` on an optional string (`record.error or "job failed"`):
an empty string is falsy. -/
def pyStrOr (o : Option String) (d : String) : String :=
  match o with
  | some x => if x == "" then d else x
  | none => d

/-- Lookup in the `_jobs` dict: the (unique, by id-uniqueness) record with the
given id. -/
def jobsFind (jobs : List JobRecord) (jid : String) : Option JobRecord :=
  jobs.find? (fun r => r.jobId == jid)

/-- In-place mutation of the record object stored under `jid` in `_jobs`
(dict order is unchanged by mutation of a value). -/
def jobsUpdate (jobs : List JobRecord) (jid : String) (f : JobRecord → JobRecord) :
    List JobRecord :=
  jobs.map (fun r => if r.jobId == jid then f r else r)

/-- Lookup in the `_jobs_by_idempotency` dict. -/
def dictFind (m : List (String × String)) (k : String) : Option String :=
  (m.find? (fun p => p.1 == k)).map (fun p => p.2)

/-- Assignment `m[k] = v` on a string-keyed dict: replace if the key exists,
else append (dicts preserve insertion order). -/
def dictInsert (m : List (String × String)) (k v : String) : List (String × String) :=
  if m.any (fun p => p.1 == k) then
    m.map (fun p => if p.1 == k then (k, v) else p)
  else m ++ [(k, v)]

/-- The whole mutable module state of `backend/app.py` plus the bookkeeping of
in-flight background executions (see the file header). -/
structure ServerState where
  jobs : List JobRecord
  idx : List (String × String)
  tasks : List String
  running : List String
deriving DecidableEq, Repr

/-- The initial module state: empty `_jobs`, empty `_jobs_by_idempotency`, no
background work scheduled. -/
def initState : ServerState := ⟨[], [], [], []⟩

/-- TTL condition of `_cleanup_jobs`: terminal status, truthy `finishedAt`,
truthy epoch, and age beyond `JOBS_TTL_SECONDS` (the float comparison
`now - finished_epoch > TTL` is `now > finished_epoch + TTL`). -/
def ttlExpired (now : Nat) (r : JobRecord) : Bool :=
  r.status.isTerminal &&
    (match r.finishedAt with
     | some t => !(t == 0) && decide (t + JOBS_TTL_SECONDS < now)
     | none => false)

/-- Identifiers of the `overflow` oldest-by-`createdAt` records among `kept`
(Python's `sorted` is stable, as is `List.mergeSort`). -/
def capVictims (kept : List JobRecord) : List String :=
  ((kept.mergeSort (fun a b => Nat.ble a.createdAt b.createdAt)).take
      (kept.length - JOBS_MAX_ITEMS)).map (fun r => r.jobId)

/-- Capacity pass of `_cleanup_jobs`: when over the cap, pop the victims by
id (which preserves the order of the survivors). -/
def capEvict (kept : List JobRecord) : List JobRecord :=
  if JOBS_MAX_ITEMS < kept.length then
    kept.filter (fun r => !(capVictims kept).contains r.jobId)
  else kept

/-- The eviction part of `_cleanup_jobs` on the `_jobs` dict: TTL pass, then
capacity pass. -/
def cleanupJobs (now : Nat) (jobs : List JobRecord) : List JobRecord :=
  capEvict (jobs.filter (fun r => !ttlExpired now r))

/-- The final loop of `_cleanup_jobs`: clear `_jobs_by_idempotency` and
re-register every live record with a truthy idempotency key (later records
overwrite earlier ones holding the same key). -/
def reconcile (jobs : List JobRecord) : List (String × String) :=
  jobs.foldl
    (fun m r =>
      match r.idempotencyKey with
      | some k => if k == "" then m else dictInsert m k r.jobId
      | none => m)
    []

/-- `_cleanup_jobs` as a state transformer. -/
def cleanupState (now : Nat) (s : ServerState) : ServerState :=
  { s with jobs := cleanupJobs now s.jobs, idx := reconcile (cleanupJobs now s.jobs) }

/-- Stamp a record terminal: `_mark_job_finished`. -/
def markJobFinished (now : Nat) (status : JobStatus) (error : Option String)
    (r : JobRecord) : JobRecord :=
  { r with status := status, error := error, finishedAt := some now }

/-- Result of the `create_job` handler: the new module state, the response or
raised error, and whether a background task was scheduled. -/
structure CreateResult where
  state : ServerState
  response : Except ApiErr JobCreateResponse
  scheduled : Bool
deriving Repr

/-- Idempotent-replay lookup of `create_job`: a truthy `idempotencyKey` that
maps (through the just-rebuilt index) to a still-live record. -/
def replayLookup (p : JobCreateRequest) (s1 : ServerState) : Option JobRecord :=
  match p.idempotencyKey with
  | some k =>
      if k == "" then none
      else
        match dictFind s1.idx k with
        | some jid => jobsFind s1.jobs jid
        | none => none
  | none => none

/-- The fresh `Pending` record built by `create_job`. -/
def newJobRecord (now : Nat) (newId : String) (p : JobCreateRequest) : JobRecord :=
  { jobId := newId, status := .pending, task := p.task, createdAt := now,
    idempotencyKey := p.idempotencyKey }

/-- Registration `_jobs_by_idempotency[payload.idempotencyKey] = job_id` for a
truthy key. -/
def registerIdem (p : JobCreateRequest) (newId : String)
    (idx : List (String × String)) : List (String × String) :=
  match p.idempotencyKey with
  | some k => if k == "" then idx else dictInsert idx k newId
  | none => idx

/-- Handler `create_job`.  `newId` stands for the fresh `uuid4` value. -/
def createJob (now : Nat) (newId : String) (p : JobCreateRequest) (s : ServerState) :
    CreateResult :=
  if p.task ≠ "detect-objects" then
    ⟨s, .error ⟨400, "unsupported_task", "unsupported task"⟩, false⟩
  else
    match replayLookup p (cleanupState now s) with
    | some existing =>
        ⟨cleanupState now s, .ok ⟨existing.jobId, existing.status, existing.createdAt⟩,
         false⟩
    | none =>
        ⟨{ jobs := (cleanupState now s).jobs ++ [newJobRecord now newId p],
           idx := registerIdem p newId (cleanupState now s).idx,
           tasks := (cleanupState now s).tasks ++ [newId],
           running := (cleanupState now s).running },
         .ok ⟨newId, .pending, now⟩, true⟩

/-- Handler `cancel_job`: new state plus response-or-error. -/
def cancelJob (now : Nat) (jid : String) (s : ServerState) :
    ServerState × Except ApiErr JobStatusView :=
  match jobsFind (cleanupState now s).jobs jid with
  | none => (cleanupState now s, .error ⟨404, "job_not_found", "job not found"⟩)
  | some r =>
    if r.status = .done ∨ r.status = .failed ∨ r.status = .timeout then
      (cleanupState now s, .error ⟨409, "job_not_cancelable", "job already completed"⟩)
    else if r.status ≠ .canceled then
      ({ cleanupState now s with jobs := (jobsUpdate (cleanupState now s).jobs jid
           (markJobFinished now .canceled (some "job canceled by user"))) },
       .ok (toJobStatusView (markJobFinished now .canceled (some "job canceled by user") r)))
    else
      (cleanupState now s, .ok (toJobStatusView r))

/-- Handler `get_job_status`: new state plus response-or-error. -/
def getJobStatus (now : Nat) (jid : String) (s : ServerState) :
    ServerState × Except ApiErr JobStatusView :=
  match jobsFind (cleanupState now s).jobs jid with
  | none => (cleanupState now s, .error ⟨404, "job_not_found", "job not found"⟩)
  | some r => (cleanupState now s, .ok (toJobStatusView r))

/-- Handler `get_job_result`: new state plus response-or-error. -/
def getJobResult (now : Nat) (jid : String) (s : ServerState) :
    ServerState × Except ApiErr JobResultResponse :=
  match jobsFind (cleanupState now s).jobs jid with
  | none => (cleanupState now s, .error ⟨404, "job_not_found", "job not found"⟩)
  | some r =>
    if r.status = .failed then
      (cleanupState now s, .error ⟨409, "job_failed", pyStrOr r.error "job failed"⟩)
    else if r.status = .timeout then
      (cleanupState now s, .error ⟨409, "job_timeout", pyStrOr r.error "job timeout"⟩)
    else if r.status = .canceled then
      (cleanupState now s, .error ⟨409, "job_canceled", pyStrOr r.error "job canceled"⟩)
    else
      match r.result with
      | none => (cleanupState now s, .error ⟨409, "job_not_completed", "job not completed"⟩)
      | some d =>
        if r.status ≠ .done then
          (cleanupState now s, .error ⟨409, "job_not_completed", "job not completed"⟩)
        else
          (cleanupState now s,
           .ok ⟨r.jobId, d.objects, d.modelVersion, d.latencyMs, d.requestId⟩)

/-- First locked section of `_process_job`: cleanup, re-read, bail out if the
record is gone or already canceled, otherwise transition to `running` and
stamp `startedAt`.  The boolean reports whether execution proceeds to the
executor call. -/
def processJobPhase1 (now : Nat) (jid : String) (s : ServerState) :
    ServerState × Bool :=
  match jobsFind (cleanupState now s).jobs jid with
  | none => (cleanupState now s, false)
  | some r =>
    if r.status = .canceled then (cleanupState now s, false)
    else
      ({ cleanupState now s with jobs := (jobsUpdate (cleanupState now s).jobs jid
           (fun r0 => { r0 with status := .running, startedAt := some now })) },
       true)

/-- Outcome of the external Work Executor (`_run_detect`): a value, or a raised
exception carrying `str(exc)`. -/
inductive ExecOutcome where
  | ok (res : DetectResponse)
  | raised (msg : String)
deriving DecidableEq, Repr

/-- Second locked section of `_process_job`, entered when `_run_detect`
returns or raises: re-read the record, bail out if gone or canceled, classify
timeout post-hoc on the success path, else record `done`/`failed`. -/
def processJobPhase2 (now : Nat) (jid : String) (outcome : ExecOutcome)
    (elapsed : ℚ) (s : ServerState) : ServerState :=
  match outcome with
  | .ok res =>
    match jobsFind s.jobs jid with
    | none => s
    | some r =>
      if r.status = .canceled then s
      else if JOB_RUN_TIMEOUT_SECONDS < elapsed then
        { s with jobs := (jobsUpdate s.jobs jid
            (markJobFinished now .timeout (some "job exceeded processing timeout"))) }
      else
        { s with jobs := (jobsUpdate s.jobs jid
            (fun r0 => { r0 with
                         status := JobStatus.done
                         finishedAt := some now
                         result := some res })) }
  | .raised msg =>
    match jobsFind s.jobs jid with
    | none => s
    | some r =>
      if r.status = .canceled then s
      else
        { s with jobs := (jobsUpdate s.jobs jid
            (markJobFinished now .failed (some msg))) }

/-- A scheduled background task entering its first locked section: it leaves
the pending-task queue and, if it proceeds, joins the in-flight queue. -/
def stepPhase1 (now : Nat) (jid : String) (s : ServerState) : ServerState :=
  if (processJobPhase1 now jid { s with tasks := s.tasks.erase jid }).2 then
    { (processJobPhase1 now jid { s with tasks := s.tasks.erase jid }).1 with
      running :=
        (processJobPhase1 now jid { s with tasks := s.tasks.erase jid }).1.running
          ++ [jid] }
  else (processJobPhase1 now jid { s with tasks := s.tasks.erase jid }).1

/-- An in-flight background task whose executor call returned or raised: it
leaves the in-flight queue and runs the second locked section. -/
def stepPhase2 (now : Nat) (jid : String) (outcome : ExecOutcome) (elapsed : ℚ)
    (s : ServerState) : ServerState :=
  processJobPhase2 now jid outcome elapsed { s with running := s.running.erase jid }

/-- The record-status sequence `listSeq`: `_jobs.values()` sorted by
`createdAt` descending (Python's stable sort with a reversed comparison),
then filtered by the optional status. -/
def listSeq (statusF : Option JobStatus) (jobs : List JobRecord) : List JobRecord :=
  match statusF with
  | some st =>
      (jobs.mergeSort (fun a b => Nat.ble b.createdAt a.createdAt)).filter
        (fun r => r.status == st)
  | none => jobs.mergeSort (fun a b => Nat.ble b.createdAt a.createdAt)

/-- Core of `list_jobs` once `limit` and the cursor offset are validated:
cleanup, order, filter, slice `records[offset : offset + limit]`, and emit
`nextCursor = offset + limit` iff more records remain. -/
def listJobsAt (now : Nat) (statusF : Option JobStatus) (limit offset : Nat)
    (s : ServerState) : ServerState × List JobRecord × Option Nat :=
  (cleanupState now s,
   ((listSeq statusF (cleanupState now s).jobs).drop offset).take limit,
   if offset + limit < (listSeq statusF (cleanupState now s).jobs).length then
     some (offset + limit)
   else none)

/-- Cursor validation of `list_jobs`: absent or empty cursor means offset 0,
otherwise `int(cursor)` must parse and be non-negative. -/
def parseCursor (cursor : Option String) : Except ApiErr Int :=
  match cursor with
  | none => .ok 0
  | some c =>
    if c == "" then .ok 0
    else
      match c.toInt? with
      | some n =>
          if n < 0 then .error ⟨400, "invalid_cursor", "cursor must be a non-negative integer"⟩
          else .ok n
      | none => .error ⟨400, "invalid_cursor", "cursor must be a non-negative integer"⟩

/-- Handler `list_jobs` with its `limit` and cursor validation (which runs
before any store access). -/
def listJobs (now : Nat) (statusF : Option JobStatus) (limit : Int)
    (cursor : Option String) (s : ServerState) :
    ServerState × Except ApiErr (List JobRecord × Option Nat) :=
  if limit < 1 ∨ 100 < limit then
    (s, .error ⟨400, "invalid_pagination", "limit must be between 1 and 100"⟩)
  else
    match parseCursor cursor with
    | .error e => (s, .error e)
    | .ok off =>
      ((listJobsAt now statusF limit.toNat off.toNat s).1,
       .ok (listJobsAt now statusF limit.toNat off.toNat s).2)

/-- A JSON value appearing in the `/health` payload. -/
inductive JVal where
  | str (v : String)
  | num (v : ℚ)
deriving DecidableEq, Repr

/-- Handler `health`: cleanup, then report the dict literal from the source
(`rid` stands for the fresh `uuid4` request id). -/
def health (now : Nat) (rid : String) (s : ServerState) :
    ServerState × List (String × JVal) :=
  (cleanupState now s,
   [("status", .str "ok"),
    ("service", .str "backend-ai-mvp"),
    ("version", .str "0.5.0"),
    ("jobsInMemory", .num ((cleanupState now s).jobs.length : ℚ)),
    ("idempotencyKeysInMemory", .num ((cleanupState now s).idx.length : ℚ)),
    ("jobRunTimeoutSec", .num JOB_RUN_TIMEOUT_SECONDS),
    ("requestId", .str rid)])

/-- Allowed status transitions of the spec's state machine (reflexive
closure of the edges). -/
def statusEdge (a b : JobStatus) : Prop :=
  a = b ∨ (a = .pending ∧ b = .running) ∨
    (a = .running ∧ (b = .done ∨ b = .failed ∨ b = .timeout)) ∨
    ((a = .pending ∨ a = .running) ∧ b = .canceled)

/-- Per-record well-formedness: the timestamp/error/result population rules of
the data model. -/
def recordWF (r : JobRecord) : Prop :=
  (r.status = .pending →
    r.startedAt = none ∧ r.finishedAt = none ∧ r.error = none ∧ r.result = none) ∧
  (r.status = .running → r.finishedAt = none ∧ r.error = none ∧ r.result = none) ∧
  (r.status = .done → r.error = none ∧ r.result ≠ none) ∧
  ((r.status = .failed ∨ r.status = .canceled ∨ r.status = .timeout) →
    r.error ≠ none ∧ r.result = none ∧ r.finishedAt ≠ none)

/-- Global well-formedness of the server state, the inductive invariant of the
whole system: unique record identifiers, well-formed records, and queue
bookkeeping consistent with record statuses. -/
structure StateWF (s : ServerState) : Prop where
  nodupIds : (s.jobs.map (fun r => r.jobId)).Nodup
  recordsWF : ∀ r ∈ s.jobs, recordWF r
  tasksNodup : s.tasks.Nodup
  runningNodup : s.running.Nodup
  tasksRunningDisjoint : ∀ jid ∈ s.tasks, jid ∉ s.running
  tasksStatus : ∀ jid ∈ s.tasks, ∀ r, jobsFind s.jobs jid = some r →
    r.status = .pending ∨ r.status = .canceled
  runningStatus : ∀ jid ∈ s.running, ∀ r, jobsFind s.jobs jid = some r →
    r.status = .running ∨ r.status = .canceled

/-- One atomic locked section of the system: a request handler runs, or one of
the two locked sections of a background execution runs.  The freshness
hypotheses on `create` state the uniqueness of `uuid4` identifiers;
`readOp` covers `health`, `get_job_status`, `get_job_result` and `list_jobs`,
whose only store mutation is the retention pass. -/
inductive Step : ServerState → ServerState → Prop where
  | create (s : ServerState) (now : Nat) (newId : String) (p : JobCreateRequest)
      (hjobs : ∀ r ∈ s.jobs, r.jobId ≠ newId)
      (htasks : newId ∉ s.tasks) (hrunning : newId ∉ s.running) :
      Step s (createJob now newId p s).state
  | cancel (s : ServerState) (now : Nat) (jid : String) :
      Step s (cancelJob now jid s).1
  | phase1 (s : ServerState) (now : Nat) (jid : String) (hmem : jid ∈ s.tasks) :
      Step s (stepPhase1 now jid s)
  | phase2 (s : ServerState) (now : Nat) (jid : String) (outcome : ExecOutcome)
      (elapsed : ℚ) (hmem : jid ∈ s.running) :
      Step s (stepPhase2 now jid outcome elapsed s)
  | readOp (s : ServerState) (now : Nat) :
      Step s (cleanupState now s)

/-- States reachable from the fresh module state through atomic sections. -/
inductive Reachable : ServerState → Prop where
  | init : Reachable initState
  | step {s s' : ServerState} : Reachable s → Step s s' → Reachable s'

/-- Repeatedly call `list_jobs` with `limit = 1`, starting from the given
offset, following `nextCursor` until it is absent; collects the pages.  The
fuel argument bounds the number of calls. -/
def iterPages (now : Nat) (s : ServerState) : Nat → Nat → List (List JobRecord)
  | 0, _ => []
  | fuel + 1, offset =>
    match (listJobsAt now none 1 offset s).2.2 with
    | none => [(listJobsAt now none 1 offset s).2.1]
    | some nxt => (listJobsAt now none 1 offset s).2.1 :: iterPages now s fuel nxt

/-- Concrete result payload used by the witness states. -/
def sampleResult : DetectResponse :=
  { objects := [], modelVersion := "backend-mvp-edge-heuristic-0.5.0",
    latencyMs := 1, requestId := "r0" }

/-- Concrete canceled record used by witnesses. -/
def sampleCanceled : JobRecord :=
  { jobId := "j1", status := .canceled, task := "detect-objects", createdAt := 10,
    startedAt := some 10, finishedAt := some 11,
    error := some "job canceled by user" }

/-- Concrete running record used by witnesses. -/
def sampleRunning : JobRecord :=
  { jobId := "j1", status := .running, task := "detect-objects", createdAt := 10,
    startedAt := some 10 }

/-- Concrete done record (with populated result) used by witnesses. -/
def sampleDone : JobRecord :=
  { jobId := "j1", status := .done, task := "detect-objects", createdAt := 10,
    startedAt := some 10, finishedAt := some 11, result := some sampleResult }

/-- Concrete pending record carrying an idempotency key, used by witnesses. -/
def samplePending : JobRecord :=
  { jobId := "j1", status := .pending, task := "detect-objects", createdAt := 10,
    idempotencyKey := some "k1" }

/-- A one-record server state around a given record. -/
def sampleState (r : JobRecord) : ServerState :=
  ⟨[r], reconcile [r], [], []⟩

/-- Two-record clean server state (distinct ids, no idempotency keys, nothing
expired) used by the pagination witness. -/
def pageState : ServerState :=
  ⟨[{ jobId := "a1", status := .running, task := "detect-objects", createdAt := 10,
      startedAt := some 10 },
    { jobId := "a2", status := .pending, task := "detect-objects", createdAt := 5 }],
   [], [], []⟩

/-- Concrete create request used by the state-machine witness. -/
def witnessRequest : JobCreateRequest :=
  { task := "detect-objects", imageBase64 := "img" }

/-- State after a single `create_job` at time 0 with fresh id `"w7"`: a
reachable state whose job store holds exactly one (pending) record. -/
def oneJobState : ServerState :=
  (createJob 0 "w7" witnessRequest initState).state

end TestPlaye

/-! Basic lemmas about the store primitives. -/

namespace TestPlaye

theorem jobsFind_spec {jobs : List JobRecord} {jid : String} {r : JobRecord}
    (h : jobsFind jobs jid = some r) : r ∈ jobs ∧ r.jobId = jid := by
  refine ⟨List.mem_of_find?_eq_some h, ?_⟩
  have h2 := List.find?_some h
  simpa using h2

theorem jobsFind_of_mem_nodup {jobs : List JobRecord}
    (hnd : (jobs.map (fun r => r.jobId)).Nodup) {r : JobRecord} (hr : r ∈ jobs) :
    jobsFind jobs r.jobId = some r := by
  induction jobs with
  | nil => cases hr
  | cons a l ih =>
    simp only [List.map_cons, List.nodup_cons, List.mem_map] at hnd
    rcases List.mem_cons.mp hr with h | h
    · subst h
      unfold jobsFind
      exact List.find?_cons_of_pos _ (by simp)
    · unfold jobsFind
      rw [List.find?_cons_of_neg]
      · exact ih hnd.2 h
      · simp only [beq_iff_eq]
        intro hEq
        exact hnd.1 ⟨r, h, hEq.symm ▸ rfl⟩

theorem mem_eq_of_nodup_ids {jobs : List JobRecord}
    (hnd : (jobs.map (fun r => r.jobId)).Nodup) {r r' : JobRecord}
    (hr : r ∈ jobs) (hr' : r' ∈ jobs) (hid : r.jobId = r'.jobId) : r = r' := by
  have h1 := jobsFind_of_mem_nodup hnd hr
  have h2 := jobsFind_of_mem_nodup hnd hr'
  rw [hid, h2] at h1
  exact (Option.some.inj h1).symm

theorem jobsFind_eq_some_iff {jobs : List JobRecord}
    (hnd : (jobs.map (fun r => r.jobId)).Nodup) {jid : String} {r : JobRecord} :
    jobsFind jobs jid = some r ↔ (r ∈ jobs ∧ r.jobId = jid) := by
  constructor
  · exact jobsFind_spec
  · rintro ⟨hm, hid⟩
    exact hid ▸ jobsFind_of_mem_nodup hnd hm

theorem jobsUpdate_map_jobId {jobs : List JobRecord} {jid : String}
    {f : JobRecord → JobRecord} (hf : ∀ r, (f r).jobId = r.jobId) :
    (jobsUpdate jobs jid f).map (fun r => r.jobId) = jobs.map (fun r => r.jobId) := by
  unfold jobsUpdate
  rw [List.map_map]
  apply List.map_congr_left
  intro a _
  by_cases h : a.jobId = jid
  · simp [h, hf]
  · simp [h]

theorem jobsFind_update {jobs : List JobRecord} {jid : String}
    {f : JobRecord → JobRecord} (hf : ∀ r, (f r).jobId = r.jobId) (j' : String) :
    jobsFind (jobsUpdate jobs jid f) j' =
      (jobsFind jobs j').map (fun r => if r.jobId == jid then f r else r) := by
  induction jobs with
  | nil => rfl
  | cons a l ih =>
    have hhead : (if (a.jobId == jid) = true then f a else a).jobId = a.jobId := by
      by_cases h : a.jobId = jid <;> simp [h, hf]
    simp only [jobsFind, jobsUpdate, List.map_cons] at ih ⊢
    rw [List.find?_cons, List.find?_cons, hhead]
    by_cases hp : a.jobId = j'
    · simp [hp]
    · have hpb : (a.jobId == j') = false := by simpa using hp
      rw [hpb]
      exact ih

theorem markJobFinished_jobId (now : Nat) (st : JobStatus) (e : Option String)
    (r : JobRecord) : (markJobFinished now st e r).jobId = r.jobId := rfl

theorem capEvict_sublist (kept : List JobRecord) : (capEvict kept).Sublist kept := by
  unfold capEvict
  split
  · exact List.filter_sublist _
  · exact List.Sublist.refl _

theorem cleanupJobs_sublist (now : Nat) (jobs : List JobRecord) :
    (cleanupJobs now jobs).Sublist jobs :=
  (capEvict_sublist _).trans (List.filter_sublist _)

theorem mem_of_mem_cleanupJobs {now : Nat} {jobs : List JobRecord} {r : JobRecord}
    (h : r ∈ cleanupJobs now jobs) : r ∈ jobs :=
  (cleanupJobs_sublist now jobs).subset h

theorem nodup_ids_cleanupJobs {now : Nat} {jobs : List JobRecord}
    (hnd : (jobs.map (fun r => r.jobId)).Nodup) :
    ((cleanupJobs now jobs).map (fun r => r.jobId)).Nodup :=
  (((cleanupJobs_sublist now jobs).map _)).nodup hnd

theorem jobsFind_cleanup {now : Nat} {jobs : List JobRecord} {jid : String}
    {r : JobRecord} (hnd : (jobs.map (fun r => r.jobId)).Nodup)
    (h : jobsFind (cleanupJobs now jobs) jid = some r) :
    jobsFind jobs jid = some r := by
  obtain ⟨hm, hid⟩ := jobsFind_spec h
  exact hid ▸ jobsFind_of_mem_nodup hnd (mem_of_mem_cleanupJobs hm)

end TestPlaye

/-! Claims C1, C2, C9, C10. -/

namespace TestPlaye

/-- C1: Cancellation wins over any execution outcome.  If the record is
`canceled` when the background path re-reads it under the lock — before
starting work (`processJobPhase1`) or after the executor returned or raised
(`processJobPhase2`, any outcome) — the path exits without writing anything:
phase 1 leaves the cleaned store untouched and reports that execution must
not proceed, and phase 2 returns the state unchanged, so the record is still
`canceled` with its result field untouched. -/
theorem cancellation_wins (now : Nat) (jid : String) (outcome : ExecOutcome)
    (elapsed : ℚ) (s : ServerState) (r : JobRecord) :
    (jobsFind (cleanupState now s).jobs jid = some r → r.status = .canceled →
      processJobPhase1 now jid s = (cleanupState now s, false)) ∧
    (jobsFind s.jobs jid = some r → r.status = .canceled →
      processJobPhase2 now jid outcome elapsed s = s ∧
      jobsFind (processJobPhase2 now jid outcome elapsed s).jobs jid = some r) := by
  constructor
  · intro hfind hc
    unfold processJobPhase1
    rw [hfind]
    simp [hc]
  · intro hfind hc
    have hs : processJobPhase2 now jid outcome elapsed s = s := by
      unfold processJobPhase2
      cases outcome <;> rw [hfind] <;> simp [hc]
    exact ⟨hs, by rw [hs]; exact hfind⟩

/-- Witness for C1 at a concrete canceled record. -/
theorem cancellation_wins_witness :
    (jobsFind (cleanupState 20 (sampleState sampleCanceled)).jobs "j1" =
        some sampleCanceled →
      sampleCanceled.status = .canceled →
      processJobPhase1 20 "j1" (sampleState sampleCanceled) =
        (cleanupState 20 (sampleState sampleCanceled), false)) ∧
    (jobsFind (sampleState sampleCanceled).jobs "j1" = some sampleCanceled →
      sampleCanceled.status = .canceled →
      processJobPhase2 20 "j1" (.ok sampleResult) 1 (sampleState sampleCanceled) =
        sampleState sampleCanceled ∧
      jobsFind
          (processJobPhase2 20 "j1" (.ok sampleResult) 1
            (sampleState sampleCanceled)).jobs "j1" = some sampleCanceled) :=
  cancellation_wins 20 "j1" (.ok sampleResult) 1 (sampleState sampleCanceled)
    sampleCanceled

/-- C2: a timeout is classified post hoc.  When the executor returns a value
`res` after `elapsed > JOB_RUN_TIMEOUT_SECONDS` seconds and the record is
live and not canceled, the second locked section marks the record `timeout`
with the fixed message, discarding the computed result (the record's result
field is left as it was, not set to `res`). -/
theorem timeout_classified_post_hoc (now : Nat) (jid : String)
    (res : DetectResponse) (elapsed : ℚ) (s : ServerState) (r : JobRecord)
    (hfind : jobsFind s.jobs jid = some r) (hnc : r.status ≠ .canceled)
    (hel : JOB_RUN_TIMEOUT_SECONDS < elapsed) :
    processJobPhase2 now jid (.ok res) elapsed s =
      { s with jobs := (jobsUpdate s.jobs jid
          (markJobFinished now .timeout (some "job exceeded processing timeout"))) } ∧
    jobsFind (processJobPhase2 now jid (.ok res) elapsed s).jobs jid =
      some (markJobFinished now .timeout (some "job exceeded processing timeout") r) ∧
    (markJobFinished now .timeout (some "job exceeded processing timeout") r).status
        = .timeout ∧
    (markJobFinished now .timeout (some "job exceeded processing timeout") r).result
        = r.result := by
  have heq : processJobPhase2 now jid (.ok res) elapsed s =
      { s with jobs := (jobsUpdate s.jobs jid
          (markJobFinished now .timeout (some "job exceeded processing timeout"))) } := by
    unfold processJobPhase2
    rw [hfind]
    simp [hnc, hel]
  refine ⟨heq, ?_, rfl, rfl⟩
  rw [heq]
  have hid := (jobsFind_spec hfind).2
  dsimp only
  rw [@jobsFind_update s.jobs jid
    (markJobFinished now .timeout (some "job exceeded processing timeout"))
    (fun r0 => rfl) jid, hfind]
  simp [hid]

/-- Witness for C2 at a concrete running record with a successful slow
executor. -/
theorem timeout_classified_post_hoc_witness :
    jobsFind (sampleState sampleRunning).jobs "j1" = some sampleRunning ∧
    sampleRunning.status ≠ .canceled ∧
    JOB_RUN_TIMEOUT_SECONDS < (9 : ℚ) ∧
    (processJobPhase2 12 "j1" (.ok sampleResult) 9 (sampleState sampleRunning) =
      { sampleState sampleRunning with
        jobs := (jobsUpdate (sampleState sampleRunning).jobs "j1"
          (markJobFinished 12 .timeout (some "job exceeded processing timeout"))) } ∧
    jobsFind
        (processJobPhase2 12 "j1" (.ok sampleResult) 9
          (sampleState sampleRunning)).jobs "j1" =
      some (markJobFinished 12 .timeout (some "job exceeded processing timeout")
        sampleRunning) ∧
    (markJobFinished 12 .timeout (some "job exceeded processing timeout")
        sampleRunning).status = .timeout ∧
    (markJobFinished 12 .timeout (some "job exceeded processing timeout")
        sampleRunning).result = sampleRunning.result) :=
  ⟨by rfl, by simp [sampleRunning], by norm_num [JOB_RUN_TIMEOUT_SECONDS],
   timeout_classified_post_hoc 12 "j1" sampleResult 9 (sampleState sampleRunning)
     sampleRunning (by rfl) (by simp [sampleRunning])
     (by norm_num [JOB_RUN_TIMEOUT_SECONDS])⟩

/-- C10: the `unsupported_task` branch of `create_job` is dead code.  The
pydantic request model constrains `task` to the literal
`"detect-objects"`, so every payload that passes request validation
reaches the handler with that exact value and the branch's error is never
returned. -/
theorem unsupported_task_branch_unreachable (p : JobCreateRequest) (now : Nat)
    (newId : String) (s : ServerState)
    (hv : jobCreateRequestWellFormed p = true) :
    p.task = "detect-objects" ∧
    (createJob now newId p s).response ≠
      Except.error ⟨400, "unsupported_task", "unsupported task"⟩ := by
  have ht : p.task = "detect-objects" := by
    simpa [jobCreateRequestWellFormed] using hv
  refine ⟨ht, ?_⟩
  unfold createJob
  rw [if_neg (by simp [ht])]
  cases hrep : replayLookup p (cleanupState now s) <;> simp [hrep]

/-- Witness for C10 at a concrete validated request. -/
theorem unsupported_task_branch_unreachable_witness :
    jobCreateRequestWellFormed ⟨"detect-objects", "img", 35 / 100, 0, none⟩ = true ∧
    ((⟨"detect-objects", "img", 35 / 100, 0, none⟩ : JobCreateRequest).task =
        "detect-objects" ∧
      (createJob 0 "id0" ⟨"detect-objects", "img", 35 / 100, 0, none⟩
          initState).response ≠
        Except.error ⟨400, "unsupported_task", "unsupported task"⟩) :=
  ⟨by rfl,
   unsupported_task_branch_unreachable ⟨"detect-objects", "img", 35 / 100, 0, none⟩
     0 "id0" initState (by rfl)⟩

/-- C9 fails on the code: the `/health` payload at a concrete state carries no
entry whose value is the retention TTL (1800) or the capacity cap (200); only
the timeout budget among the three constants is reported. -/
theorem health_probe_constants_missing :
    (∀ kv ∈ (health 0 "rid" initState).2, kv.2 ≠ JVal.num (JOBS_TTL_SECONDS : ℚ)) ∧
    (∀ kv ∈ (health 0 "rid" initState).2, kv.2 ≠ JVal.num (JOBS_MAX_ITEMS : ℚ)) := by
  constructor <;> · intro kv hkv
                    simp only [health, initState, cleanupState, cleanupJobs, capEvict,
                      List.filter_nil, reconcile, List.foldl_nil, List.mem_cons] at hkv
                    rcases hkv with h | h | h | h | h | h | h | h <;>
                      simp_all [JOBS_TTL_SECONDS, JOBS_MAX_ITEMS, JOB_RUN_TIMEOUT_SECONDS]

/-- C9 as amended: the liveness probe reports the live-record count, the
idempotency-key count and the per-job timeout budget (alongside fixed service
metadata and a request id), and those are the only fields — in particular the
retention TTL and the capacity cap are not reported. -/
theorem health_probe_reports (now : Nat) (rid : String) (s : ServerState) :
    ((health now rid s).2.map Prod.fst =
      ["status", "service", "version", "jobsInMemory", "idempotencyKeysInMemory",
       "jobRunTimeoutSec", "requestId"]) ∧
    ("jobsInMemory", JVal.num ((cleanupState now s).jobs.length : ℚ)) ∈
      (health now rid s).2 ∧
    ("idempotencyKeysInMemory", JVal.num ((cleanupState now s).idx.length : ℚ)) ∈
      (health now rid s).2 ∧
    ("jobRunTimeoutSec", JVal.num JOB_RUN_TIMEOUT_SECONDS) ∈ (health now rid s).2 := by
  refine ⟨rfl, ?_, ?_, ?_⟩ <;> simp [health]

end TestPlaye

/-! Claims C4 and C5. -/

namespace TestPlaye

theorem getJobResult_some (now : Nat) (jid : String) (s : ServerState)
    (r : JobRecord) (hfind : jobsFind (cleanupState now s).jobs jid = some r) :
    (getJobResult now jid s).2 =
      (if r.status = .failed then
        .error ⟨409, "job_failed", pyStrOr r.error "job failed"⟩
      else if r.status = .timeout then
        .error ⟨409, "job_timeout", pyStrOr r.error "job timeout"⟩
      else if r.status = .canceled then
        .error ⟨409, "job_canceled", pyStrOr r.error "job canceled"⟩
      else
        match r.result with
        | none => .error ⟨409, "job_not_completed", "job not completed"⟩
        | some d =>
          if r.status ≠ .done then
            .error ⟨409, "job_not_completed", "job not completed"⟩
          else .ok ⟨r.jobId, d.objects, d.modelVersion, d.latencyMs, d.requestId⟩) := by
  unfold getJobResult
  rw [hfind]
  dsimp only
  cases hres : r.result <;> split_ifs <;> rfl

/-- C4: the `GetResult` contract.  After retention it fails `NotFound` iff no
live record exists; a `Failed`/`TimedOut`/`Canceled` record yields the
status-specific 409 conflict whose message is the stored error (with the
code's fallbacks for an absent or empty stored message); a `Pending` or
`Running` record yields the `job_not_completed` conflict; and the call
succeeds, returning the stored payload, exactly when the record is `Done`
with a populated result. -/
theorem get_result_contract (now : Nat) (jid : String) (s : ServerState) :
    ((getJobResult now jid s).2 = .error ⟨404, "job_not_found", "job not found"⟩ ↔
      jobsFind (cleanupState now s).jobs jid = none) ∧
    (∀ r, jobsFind (cleanupState now s).jobs jid = some r →
      (r.status = .failed →
        (getJobResult now jid s).2 =
          .error ⟨409, "job_failed", pyStrOr r.error "job failed"⟩) ∧
      (r.status = .timeout →
        (getJobResult now jid s).2 =
          .error ⟨409, "job_timeout", pyStrOr r.error "job timeout"⟩) ∧
      (r.status = .canceled →
        (getJobResult now jid s).2 =
          .error ⟨409, "job_canceled", pyStrOr r.error "job canceled"⟩) ∧
      ((r.status = .pending ∨ r.status = .running) →
        (getJobResult now jid s).2 =
          .error ⟨409, "job_not_completed", "job not completed"⟩) ∧
      (∀ d, r.status = .done → r.result = some d →
        (getJobResult now jid s).2 =
          .ok ⟨r.jobId, d.objects, d.modelVersion, d.latencyMs, d.requestId⟩)) ∧
    ((∃ resp, (getJobResult now jid s).2 = .ok resp) ↔
      (∃ r d, jobsFind (cleanupState now s).jobs jid = some r ∧
        r.status = .done ∧ r.result = some d)) ∧
    (∀ r m, jobsFind (cleanupState now s).jobs jid = some r →
      (r.status = .failed ∨ r.status = .timeout ∨ r.status = .canceled) →
      r.error = some m → m ≠ "" →
      ∃ e, (getJobResult now jid s).2 = .error e ∧ e.statusCode = 409 ∧
        e.message = m) := by
  refine ⟨?_, ?_, ?_, ?_⟩
  · cases hfind : jobsFind (cleanupState now s).jobs jid with
    | none =>
      simp [getJobResult, hfind]
    | some r =>
      rw [getJobResult_some now jid s r hfind]
      constructor
      · intro h
        exfalso
        cases hst : r.status <;> rw [hst] at h <;>
          cases hres : r.result <;> rw [hres] at h <;> simp at h
      · intro h
        cases h
  · intro r hfind
    rw [getJobResult_some now jid s r hfind]
    refine ⟨fun hst => by simp [hst], fun hst => by simp [hst],
      fun hst => by simp [hst], ?_, ?_⟩
    · rintro (hst | hst) <;> cases hres : r.result <;> simp [hst]
    · intro d hst hres
      simp [hst, hres]
  · constructor
    · rintro ⟨resp, heq⟩
      cases hfind : jobsFind (cleanupState now s).jobs jid with
      | none =>
        rw [show (getJobResult now jid s).2 =
            .error ⟨404, "job_not_found", "job not found"⟩ by
          simp only [getJobResult, hfind]] at heq
        cases heq
      | some r =>
        rw [getJobResult_some now jid s r hfind] at heq
        cases hst : r.status with
        | done =>
          cases hres : r.result with
          | none =>
            rw [hst, hres] at heq
            simp at heq
          | some d => exact ⟨r, d, rfl, hst, hres⟩
        | pending =>
          rw [hst] at heq
          cases hres : r.result <;> rw [hres] at heq <;> simp at heq
        | running =>
          rw [hst] at heq
          cases hres : r.result <;> rw [hres] at heq <;> simp at heq
        | failed =>
          rw [hst] at heq
          simp at heq
        | canceled =>
          rw [hst] at heq
          simp at heq
        | timeout =>
          rw [hst] at heq
          simp at heq
    · rintro ⟨r, d, hfind, hst, hres⟩
      rw [getJobResult_some now jid s r hfind]
      refine ⟨⟨r.jobId, d.objects, d.modelVersion, d.latencyMs, d.requestId⟩, ?_⟩
      simp [hst, hres]
  · intro r m hfind hterm herr hm
    rw [getJobResult_some now jid s r hfind]
    rcases hterm with hst | hst | hst
    · refine ⟨⟨409, "job_failed", pyStrOr r.error "job failed"⟩, ?_, rfl, ?_⟩
      · simp [hst]
      · simp [pyStrOr, herr, hm]
    · refine ⟨⟨409, "job_timeout", pyStrOr r.error "job timeout"⟩, ?_, rfl, ?_⟩
      · simp [hst]
      · simp [pyStrOr, herr, hm]
    · refine ⟨⟨409, "job_canceled", pyStrOr r.error "job canceled"⟩, ?_, rfl, ?_⟩
      · simp [hst]
      · simp [pyStrOr, herr, hm]

/-- Witness for C4: fetching the result of a concrete `Done` record with a
populated result returns the stored payload. -/
theorem get_result_contract_witness :
    jobsFind (cleanupState 20 (sampleState sampleDone)).jobs "j1" = some sampleDone ∧
    (getJobResult 20 "j1" (sampleState sampleDone)).2 =
      .ok ⟨sampleDone.jobId, sampleResult.objects, sampleResult.modelVersion,
        sampleResult.latencyMs, sampleResult.requestId⟩ :=
  ⟨by rfl,
   ((get_result_contract 20 "j1" (sampleState sampleDone)).2.1 sampleDone
     (by rfl)).2.2.2.2 sampleResult (by rfl) (by rfl)⟩

/-- C5: the `Cancel` contract.  After retention it fails `NotFound` iff no
live record exists; it fails the `job_not_cancelable` conflict iff the record
is `Done`, `Failed` or `TimedOut`; a `Pending` or `Running` record is
transitioned to `Canceled` with the fixed message and a stamped `finishedAt`
and its view is returned; an already-`Canceled` record is left untouched and
its view returned (idempotent success). -/
theorem cancel_contract (now : Nat) (jid : String) (s : ServerState) :
    ((cancelJob now jid s).2 = .error ⟨404, "job_not_found", "job not found"⟩ ↔
      jobsFind (cleanupState now s).jobs jid = none) ∧
    (∀ r, jobsFind (cleanupState now s).jobs jid = some r →
      ((cancelJob now jid s).2 =
          .error ⟨409, "job_not_cancelable", "job already completed"⟩ ↔
        (r.status = .done ∨ r.status = .failed ∨ r.status = .timeout))) ∧
    (∀ r, jobsFind (cleanupState now s).jobs jid = some r →
      (r.status = .pending ∨ r.status = .running) →
      cancelJob now jid s =
        ({ cleanupState now s with
            jobs := (jobsUpdate (cleanupState now s).jobs jid
              (markJobFinished now .canceled (some "job canceled by user"))) },
         .ok (toJobStatusView
           (markJobFinished now .canceled (some "job canceled by user") r))) ∧
      (markJobFinished now .canceled (some "job canceled by user") r).status =
        .canceled ∧
      (markJobFinished now .canceled (some "job canceled by user") r).finishedAt =
        some now) ∧
    (∀ r, jobsFind (cleanupState now s).jobs jid = some r →
      r.status = .canceled →
      cancelJob now jid s = (cleanupState now s, .ok (toJobStatusView r))) := by
  refine ⟨?_, ?_, ?_, ?_⟩
  · cases hfind : jobsFind (cleanupState now s).jobs jid with
    | none =>
      simp [cancelJob, hfind]
    | some r =>
      simp only [cancelJob, hfind]
      constructor
      · intro h
        exfalso
        split_ifs at h <;> simp at h
      · intro h
        cases h
  · intro r hfind
    simp only [cancelJob, hfind]
    constructor
    · intro h
      by_contra hterm
      rw [if_neg hterm] at h
      by_cases hc : r.status ≠ .canceled
      · rw [if_pos hc] at h
        cases h
      · rw [if_neg hc] at h
        cases h
    · intro hterm
      rw [if_pos hterm]
  · intro r hfind hpr
    have hterm : ¬(r.status = .done ∨ r.status = .failed ∨ r.status = .timeout) := by
      rcases hpr with hst | hst <;> simp [hst]
    have hc : r.status ≠ .canceled := by
      rcases hpr with hst | hst <;> simp [hst]
    refine ⟨?_, rfl, rfl⟩
    simp only [cancelJob, hfind]
    rw [if_neg hterm, if_pos hc]
  · intro r hfind hst
    have hterm : ¬(r.status = .done ∨ r.status = .failed ∨ r.status = .timeout) := by
      simp [hst]
    simp only [cancelJob, hfind]
    rw [if_neg hterm, if_neg (by simp [hst])]

/-- Witness for C5: canceling a concrete running record marks it `Canceled`
with the fixed message and stamps `finishedAt`. -/
theorem cancel_contract_witness :
    jobsFind (cleanupState 20 (sampleState sampleRunning)).jobs "j1" =
      some sampleRunning ∧
    (sampleRunning.status = .pending ∨ sampleRunning.status = .running) ∧
    (cancelJob 20 "j1" (sampleState sampleRunning) =
      ({ cleanupState 20 (sampleState sampleRunning) with
          jobs := (jobsUpdate (cleanupState 20 (sampleState sampleRunning)).jobs "j1"
            (markJobFinished 20 .canceled (some "job canceled by user"))) },
       .ok (toJobStatusView
         (markJobFinished 20 .canceled (some "job canceled by user") sampleRunning))) ∧
    (markJobFinished 20 .canceled (some "job canceled by user") sampleRunning).status =
      .canceled ∧
    (markJobFinished 20 .canceled (some "job canceled by user")
        sampleRunning).finishedAt = some 20) :=
  ⟨by rfl, Or.inr rfl,
   (cancel_contract 20 "j1" (sampleState sampleRunning)).2.2.1 sampleRunning
     (by rfl) (Or.inr rfl)⟩

end TestPlaye

/-! Lemmas about the idempotency dict and its rebuild (`reconcile`). -/

namespace TestPlaye

theorem dictFind_map_replace_ne (l : List (String × String)) (k v k2 : String)
    (hk2 : k2 ≠ k) :
    dictFind (l.map (fun p => if p.1 == k then (k, v) else p)) k2 = dictFind l k2 := by
  induction l with
  | nil => rfl
  | cons a l ih =>
    simp only [List.map_cons]
    unfold dictFind
    rw [List.find?_cons, List.find?_cons]
    by_cases hak : a.1 = k
    · have h1 : (((if (a.1 == k) = true then (k, v) else a) : String × String).1 == k2)
          = false := by
        simp [hak, Ne.symm hk2]
      have h2 : (a.1 == k2) = false := by
        simp [hak, Ne.symm hk2]
      rw [h1, h2]
      exact ih
    · have h1 : (if (a.1 == k) = true then (k, v) else a) = a := by
        simp [hak]
      rw [h1]
      cases hp : (a.1 == k2)
      · exact ih
      · rfl

theorem dictFind_map_replace_self (l : List (String × String)) (k v : String)
    (hany : l.any (fun p => p.1 == k) = true) :
    dictFind (l.map (fun p => if p.1 == k then (k, v) else p)) k = some v := by
  induction l with
  | nil => cases hany
  | cons a l ih =>
    simp only [List.any_cons, Bool.or_eq_true] at hany
    simp only [List.map_cons]
    unfold dictFind
    rw [List.find?_cons]
    by_cases hak : a.1 = k
    · have h1 : (if (a.1 == k) = true then (k, v) else a) = (k, v) := by
        simp [hak]
      rw [h1]
      simp
    · have h1 : (if (a.1 == k) = true then (k, v) else a) = a := by
        simp [hak]
      have hb : ((a.1 == k) : Bool) = false := by simp [hak]
      have hany2 : l.any (fun p => p.1 == k) = true := by
        rcases hany with h | h
        · rw [hb] at h; cases h
        · exact h
      rw [h1]
      have hb2 : (a.1 == k) = false := hb
      rw [hb2]
      exact ih hany2

theorem dictFind_insert (m : List (String × String)) (k v k2 : String) :
    dictFind (dictInsert m k v) k2 = if k2 = k then some v else dictFind m k2 := by
  unfold dictInsert
  by_cases hany : m.any (fun p => p.1 == k) = true
  · rw [if_pos hany]
    by_cases hk2 : k2 = k
    · subst hk2
      rw [dictFind_map_replace_self m k2 v hany, if_pos rfl]
    · rw [dictFind_map_replace_ne m k v k2 hk2, if_neg hk2]
  · rw [if_neg hany]
    unfold dictFind
    rw [List.find?_append]
    by_cases hk2 : k2 = k
    · subst hk2
      have hnone : m.find? (fun p => p.1 == k2) = none := by
        rw [List.find?_eq_none]
        intro x hx hpx
        exact hany (List.any_eq_true.mpr ⟨x, hx, hpx⟩)
      rw [hnone, if_pos rfl]
      simp [List.find?]
    · have h0 : ((k == k2) : Bool) = false := beq_eq_false_iff_ne.mpr (Ne.symm hk2)
      have hone : List.find? (fun p => p.1 == k2) [(k, v)] = none := by
        simp [List.find?, h0]
      rw [hone, if_neg hk2]
      cases hm2 : m.find? (fun p => p.1 == k2) <;> rfl

theorem reconcile_aux (jobs : List JobRecord) :
    ∀ (m : List (String × String)) (k : String),
      dictFind (jobs.foldl (fun m r =>
          match r.idempotencyKey with
          | some k2 => if k2 == "" then m else dictInsert m k2 r.jobId
          | none => m) m) k =
        (match jobs.reverse.find?
            (fun r => r.idempotencyKey == some k && !(k == "")) with
         | some r => some r.jobId
         | none => dictFind m k) := by
  induction jobs with
  | nil => intro m k; rfl
  | cons a l ih =>
    intro m k
    rw [List.foldl_cons, ih, List.reverse_cons, List.find?_append]
    cases hfl : l.reverse.find? (fun r => r.idempotencyKey == some k && !(k == "")) with
    | some r => rfl
    | none =>
      simp only [Option.none_or]
      cases hik : a.idempotencyKey with
      | none =>
        have hpred : List.find? (fun r => r.idempotencyKey == some k && !(k == "")) [a]
            = none := by
          simp [List.find?, hik]
        rw [hpred]
      | some k2 =>
        by_cases hk2e : k2 = ""
        · subst hk2e
          have hpred : List.find? (fun r => r.idempotencyKey == some k && !(k == "")) [a]
              = none := by
            by_cases hke : k = ""
            · simp [List.find?, hik, hke]
            · have h0 : (("" == k) : Bool) = false := by
                simp [Ne.symm hke]
              simp [List.find?, hik, h0]
          rw [hpred]
          simp [hik]
        · have hred : (match some k2 with
              | some k3 => if (k3 == "") = true then m else dictInsert m k3 a.jobId
              | none => m) = dictInsert m k2 a.jobId := by
            simp [hk2e]
          rw [hred, dictFind_insert]
          by_cases hkk : k = k2
          · subst hkk
            have h0 : ((k == "") : Bool) = false := beq_eq_false_iff_ne.mpr hk2e
            have hpred : List.find? (fun r => r.idempotencyKey == some k && !(k == "")) [a]
                = some a := by
              simp [List.find?, hik, h0]
            rw [hpred, if_pos rfl]
          · have h1 : ((k2 == k) : Bool) = false := beq_eq_false_iff_ne.mpr (Ne.symm hkk)
            have hpred : List.find? (fun r => r.idempotencyKey == some k && !(k == "")) [a]
                = none := by
              simp [List.find?, hik, h1]
            rw [hpred, if_neg hkk]

theorem dictFind_reconcile (jobs : List JobRecord) (k : String) :
    dictFind (reconcile jobs) k =
      (jobs.reverse.find? (fun r => r.idempotencyKey == some k && !(k == ""))).map
        (fun r => r.jobId) := by
  unfold reconcile
  rw [reconcile_aux]
  cases h : jobs.reverse.find? (fun r => r.idempotencyKey == some k && !(k == "")) <;>
    rfl

theorem dictFind_reconcile_eq_none (jobs : List JobRecord) (k : String) :
    dictFind (reconcile jobs) k = none ↔
      ∀ r ∈ jobs, r.idempotencyKey = some k → k = "" := by
  rw [dictFind_reconcile]
  rw [Option.map_eq_none']
  rw [List.find?_eq_none]
  constructor
  · intro h r hr hkey
    by_contra hke
    exact h r (List.mem_reverse.mpr hr) (by simp [hkey, hke])
  · intro h r hr hpred
    simp only [Bool.and_eq_true, beq_iff_eq, Bool.not_eq_true', beq_eq_false_iff_ne,
      ne_eq] at hpred
    exact hpred.2 (h r (List.mem_reverse.mp hr) hpred.1)

theorem dictFind_reconcile_eq_some (jobs : List JobRecord) (k jid : String)
    (hk : k ≠ "")
    (huniq : ∀ r1 ∈ jobs, ∀ r2 ∈ jobs,
      r1.idempotencyKey = some k → r2.idempotencyKey = some k → r1 = r2) :
    dictFind (reconcile jobs) k = some jid ↔
      ∃ r ∈ jobs, r.idempotencyKey = some k ∧ r.jobId = jid := by
  rw [dictFind_reconcile]
  constructor
  · intro h
    rcases Option.map_eq_some'.mp h with ⟨r, hr, hjid⟩
    have hrmem := List.mem_reverse.mp (List.mem_of_find?_eq_some hr)
    have hrpred := List.find?_some hr
    simp only [Bool.and_eq_true, beq_iff_eq] at hrpred
    exact ⟨r, hrmem, hrpred.1, hjid⟩
  · rintro ⟨r, hr, hkey, hjid⟩
    cases hf : jobs.reverse.find? (fun r => r.idempotencyKey == some k && !(k == "")) with
    | none =>
      exfalso
      exact absurd (List.find?_eq_none.mp hf r (List.mem_reverse.mpr hr))
        (by simp [hkey, hk])
    | some r2 =>
      have h2mem := List.mem_reverse.mp (List.mem_of_find?_eq_some hf)
      have h2pred := List.find?_some hf
      simp only [Bool.and_eq_true, beq_iff_eq] at h2pred
      have : r2 = r := huniq r2 h2mem r hr h2pred.1 hkey
      subst this
      simp [hjid]

end TestPlaye

/-! Claim C3. -/

namespace TestPlaye

theorem createJob_replay_eq (now : Nat) (newId : String) (p : JobCreateRequest)
    (s : ServerState) (r : JobRecord) (htask : p.task = "detect-objects")
    (hrep : replayLookup p (cleanupState now s) = some r) :
    createJob now newId p s =
      ⟨cleanupState now s, .ok ⟨r.jobId, r.status, r.createdAt⟩, false⟩ := by
  unfold createJob
  rw [if_neg (by simp [htask]), hrep]

/-- C3: idempotent replay of `Submit`.  Part one: when, after retention, the
submitted (truthy) idempotency key maps to a live record, `create_job`
answers with that record's identifier, its current status, and its original
`createdAt` as `acceptedAt`, leaves the store as retention left it (no new
record), and schedules no background execution.  Part two: submitting,
then submitting again with the same key while the first job's record is
still live after the second call's retention pass, yields the same `jobId`
(`newId`) and the same `acceptedAt` (the first call's `now`) both times. -/
theorem submit_idempotent_replay (now : Nat) (newId : String)
    (p : JobCreateRequest) (s : ServerState) (k : String)
    (htask : p.task = "detect-objects") (hkey : p.idempotencyKey = some k)
    (hk : k ≠ "") :
    (∀ jid r, dictFind (cleanupState now s).idx k = some jid →
      jobsFind (cleanupState now s).jobs jid = some r →
      createJob now newId p s =
        ⟨cleanupState now s, .ok ⟨r.jobId, r.status, r.createdAt⟩, false⟩) ∧
    (∀ now2 newId2 r2,
      (∀ r0 ∈ s.jobs, r0.jobId ≠ newId) →
      dictFind (cleanupState now s).idx k = none →
      jobsFind (cleanupJobs now2 (createJob now newId p s).state.jobs) newId =
        some r2 →
      (createJob now newId p s).response = .ok ⟨newId, .pending, now⟩ ∧
      (createJob now2 newId2 p (createJob now newId p s).state).response =
        .ok ⟨newId, .pending, now⟩) := by
  have hkb : ¬((k == "") = true) := by simp [hk]
  constructor
  · intro jid r hidx hfind
    have hrep : replayLookup p (cleanupState now s) = some r := by
      unfold replayLookup
      rw [hkey]
      dsimp only
      rw [if_neg hkb, hidx]
      exact hfind
    exact createJob_replay_eq now newId p s r htask hrep
  · intro now2 newId2 r2 hfresh hnone hfind2
    have hrep1 : replayLookup p (cleanupState now s) = none := by
      unfold replayLookup
      rw [hkey]
      dsimp only
      rw [if_neg hkb, hnone]
    have hpair : (createJob now newId p s).state =
        { jobs := (cleanupState now s).jobs ++ [newJobRecord now newId p],
          idx := registerIdem p newId (cleanupState now s).idx,
          tasks := (cleanupState now s).tasks ++ [newId],
          running := (cleanupState now s).running } ∧
        (createJob now newId p s).response = .ok ⟨newId, .pending, now⟩ := by
      unfold createJob
      rw [if_neg (by simp [htask]), hrep1]
      exact ⟨rfl, rfl⟩
    obtain ⟨hstate, hresp1⟩ := hpair
    refine ⟨hresp1, ?_⟩
    have h2 := jobsFind_spec hfind2
    have hr2mem : r2 ∈ (createJob now newId p s).state.jobs :=
      mem_of_mem_cleanupJobs h2.1
    rw [hstate] at hr2mem
    have hnocarrier : ∀ r0 ∈ (cleanupState now s).jobs,
        r0.idempotencyKey = some k → k = "" := by
      have hnone2 : dictFind (reconcile (cleanupJobs now s.jobs)) k = none := hnone
      intro r0 h0 hk0
      exact (dictFind_reconcile_eq_none (cleanupJobs now s.jobs) k).mp hnone2 r0 h0 hk0
    have hmemrec : ∀ r1, r1 ∈ (cleanupState now s).jobs ++ [newJobRecord now newId p] →
        r1.idempotencyKey = some k → r1 = newJobRecord now newId p := by
      intro r1 h1 hk1
      rcases List.mem_append.mp h1 with hmem | hmem
      · exact absurd (hnocarrier r1 hmem hk1) hk
      · simpa using hmem
    have hr2eq : r2 = newJobRecord now newId p := by
      rcases List.mem_append.mp hr2mem with hmem | hmem
      · exact absurd h2.2 (hfresh r2 (mem_of_mem_cleanupJobs hmem))
      · simpa using hmem
    have hr2key : r2.idempotencyKey = some k := by
      rw [hr2eq]
      simp [newJobRecord, hkey]
    have huniq : ∀ r1 ∈ cleanupJobs now2 (createJob now newId p s).state.jobs,
        ∀ r3 ∈ cleanupJobs now2 (createJob now newId p s).state.jobs,
        r1.idempotencyKey = some k → r3.idempotencyKey = some k → r1 = r3 := by
      intro r1 h1 r3 h3 hk1 hk3
      have e1 : r1 = newJobRecord now newId p := by
        have hmem := mem_of_mem_cleanupJobs h1
        rw [hstate] at hmem
        exact hmemrec r1 hmem hk1
      have e3 : r3 = newJobRecord now newId p := by
        have hmem := mem_of_mem_cleanupJobs h3
        rw [hstate] at hmem
        exact hmemrec r3 hmem hk3
      rw [e1, e3]
    have hidx2 : dictFind (cleanupState now2 (createJob now newId p s).state).idx k =
        some newId := by
      have : dictFind
          (reconcile (cleanupJobs now2 (createJob now newId p s).state.jobs)) k =
          some newId :=
        (dictFind_reconcile_eq_some
          (cleanupJobs now2 (createJob now newId p s).state.jobs) k newId hk
          huniq).mpr ⟨r2, h2.1, hr2key, h2.2⟩
      exact this
    have hrep2 : replayLookup p (cleanupState now2 (createJob now newId p s).state) =
        some r2 := by
      unfold replayLookup
      rw [hkey]
      dsimp only
      rw [if_neg hkb, hidx2]
      exact hfind2
    have hfinal := createJob_replay_eq now2 newId2 p (createJob now newId p s).state
      r2 htask hrep2
    rw [hfinal, hr2eq]
    rfl

/-- Witness for C3: resubmitting key "k1" while the concrete pending record
carrying it is live replays that record. -/
theorem submit_idempotent_replay_witness :
    createJob 20 "newid2" ⟨"detect-objects", "img", 35 / 100, 0, some "k1"⟩
        (sampleState samplePending) =
      ⟨cleanupState 20 (sampleState samplePending),
       .ok ⟨samplePending.jobId, samplePending.status, samplePending.createdAt⟩,
       false⟩ :=
  (submit_idempotent_replay 20 "newid2"
      ⟨"detect-objects", "img", 35 / 100, 0, some "k1"⟩
      (sampleState samplePending) "k1" (by rfl) (by rfl) (by decide)).1
    "j1" samplePending (by rfl) (by rfl)

end TestPlaye

/-! Claim C6: the retention algorithm. -/

namespace TestPlaye

set_option maxRecDepth 8192 in
theorem capEvict_spec (kept : List JobRecord)
    (hnd : (kept.map (fun r => r.jobId)).Nodup)
    (hover : JOBS_MAX_ITEMS < kept.length) :
    (capEvict kept).length = JOBS_MAX_ITEMS ∧
    (∀ r ∈ capEvict kept, r ∈ kept) ∧
    (∀ r ∈ kept, r ∉ capEvict kept →
      ∀ q0 ∈ capEvict kept, r.createdAt ≤ q0.createdAt) := by
  unfold capEvict capVictims
  rw [if_pos hover]
  set sorted := kept.mergeSort (fun a b => Nat.ble a.createdAt b.createdAt) with hsdef
  set overflow := kept.length - JOBS_MAX_ITEMS with hodef
  set victims := (sorted.take overflow).map (fun r => r.jobId) with hvdef
  have hperm : sorted.Perm kept := by
    rw [hsdef]
    exact List.mergeSort_perm kept _
  have hnds : (sorted.map (fun r => r.jobId)).Nodup :=
    ((hperm.map (fun r => r.jobId)).symm).nodup hnd
  have hsplit : sorted.take overflow ++ sorted.drop overflow = sorted :=
    List.take_append_drop _ _
  have hdisj : List.Disjoint ((sorted.take overflow).map (fun r => r.jobId))
      ((sorted.drop overflow).map (fun r => r.jobId)) := by
    have h0 := hnds
    rw [← hsplit, List.map_append, List.nodup_append] at h0
    exact h0.2.2
  have hsort : List.Pairwise
      (fun a b => (Nat.ble a.createdAt b.createdAt) = true) sorted := by
    rw [hsdef]
    exact List.sorted_mergeSort
      (by
        intro a b c hab hbc
        rw [Nat.ble_eq] at hab hbc ⊢
        omega)
      (by
        intro a b
        rcases Nat.le_total a.createdAt b.createdAt with h | h <;>
          simp [Nat.ble_eq, h])
      kept
  have htakeq : ∀ t ∈ sorted.take overflow,
      (!(victims.contains t.jobId)) = false := by
    intro t ht
    have hmem : t.jobId ∈ victims := by
      rw [hvdef]
      exact List.mem_map.mpr ⟨t, ht, rfl⟩
    simpa using hmem
  have hdropq : ∀ d ∈ sorted.drop overflow,
      (!(victims.contains d.jobId)) = true := by
    intro d hd
    have hnmem : d.jobId ∉ victims := by
      intro hmem
      rw [hvdef] at hmem
      exact hdisj hmem (List.mem_map.mpr ⟨d, hd, rfl⟩)
    simpa using hnmem
  have hfilperm : (kept.filter (fun r => !victims.contains r.jobId)).Perm
      (sorted.drop overflow) := by
    have h1 : (kept.filter (fun r => !victims.contains r.jobId)).Perm
        (sorted.filter (fun r => !victims.contains r.jobId)) :=
      List.Perm.filter _ hperm.symm
    have h2 : sorted.filter (fun r => !victims.contains r.jobId) =
        sorted.drop overflow := by
      conv =>
        lhs
        rw [← hsplit]
      rw [List.filter_append]
      rw [List.filter_eq_nil_iff.mpr (by
        intro a ha
        rw [htakeq a ha]
        exact Bool.false_ne_true)]
      rw [List.filter_eq_self.mpr hdropq]
      simp
    exact h1.trans (by rw [h2])
  refine ⟨?_, ?_, ?_⟩
  · rw [hfilperm.length_eq, List.length_drop, hperm.length_eq]
    omega
  · intro r hr
    exact List.mem_of_mem_filter hr
  · intro r hr hnr q0 hq0
    have hrs : r ∈ sorted := hperm.mem_iff.mpr hr
    rw [← hsplit] at hrs
    have hrtake : r ∈ sorted.take overflow := by
      rcases List.mem_append.mp hrs with h | h
      · exact h
      · exact absurd (List.mem_filter.mpr ⟨hr, hdropq r h⟩) hnr
    have hqdrop : q0 ∈ sorted.drop overflow := hfilperm.mem_iff.mp hq0
    have hpairs := hsort
    rw [← hsplit, List.pairwise_append] at hpairs
    have hble := hpairs.2.2 r hrtake q0 hqdrop
    rw [Nat.ble_eq] at hble
    exact hble

/-- C6: one retention pass first removes exactly the terminal records whose
`finishedAt` lies beyond the 1800-second window (truthy-epoch caveat of the
code included in `ttlExpired`), then — only when more than 200 records are
left — evicts oldest-by-`createdAt` records, irrespective of status, until
exactly 200 remain, and finally rebuilds the idempotency index so that it
maps a (truthy) key to exactly the live record carrying it. -/
theorem retention_algorithm (now : Nat) (s : ServerState)
    (hnodup : (s.jobs.map (fun r => r.jobId)).Nodup) :
    (∀ r, r ∈ s.jobs.filter (fun r => !ttlExpired now r) ↔
      (r ∈ s.jobs ∧ ttlExpired now r = false)) ∧
    ((s.jobs.filter (fun r => !ttlExpired now r)).length ≤ JOBS_MAX_ITEMS →
      (cleanupState now s).jobs = s.jobs.filter (fun r => !ttlExpired now r)) ∧
    (JOBS_MAX_ITEMS < (s.jobs.filter (fun r => !ttlExpired now r)).length →
      (cleanupState now s).jobs.length = JOBS_MAX_ITEMS ∧
      (∀ r ∈ (cleanupState now s).jobs,
        r ∈ s.jobs.filter (fun r => !ttlExpired now r)) ∧
      (∀ r ∈ s.jobs.filter (fun r => !ttlExpired now r),
        r ∉ (cleanupState now s).jobs →
        ∀ q0 ∈ (cleanupState now s).jobs, r.createdAt ≤ q0.createdAt)) ∧
    (∀ k jid, k ≠ "" →
      (∀ r1 ∈ (cleanupState now s).jobs, ∀ r2 ∈ (cleanupState now s).jobs,
        r1.idempotencyKey = some k → r2.idempotencyKey = some k → r1 = r2) →
      (dictFind (cleanupState now s).idx k = some jid ↔
        ∃ r ∈ (cleanupState now s).jobs,
          r.idempotencyKey = some k ∧ r.jobId = jid)) := by
  have hkeptnd : ((s.jobs.filter (fun r => !ttlExpired now r)).map
      (fun r => r.jobId)).Nodup :=
    ((List.filter_sublist s.jobs).map (fun r => r.jobId)).nodup hnodup
  refine ⟨?_, ?_, ?_, ?_⟩
  · intro r
    rw [List.mem_filter]
    simp
  · intro hle
    show capEvict (s.jobs.filter (fun r => !ttlExpired now r)) = _
    unfold capEvict
    rw [if_neg (by omega)]
  · intro hover
    exact capEvict_spec (s.jobs.filter (fun r => !ttlExpired now r)) hkeptnd hover
  · intro k jid hk huniq
    exact dictFind_reconcile_eq_some (cleanupJobs now s.jobs) k jid hk huniq

/-- Witness for C6 at a small concrete state (one expired done record, one
live pending record carrying a key): instantiates the retention theorem and
checks its TTL clause and index clause concretely. -/
theorem retention_algorithm_witness :
    ({ sampleDone with jobId := "j0", finishedAt := some 1 } ∈
        ([{ sampleDone with jobId := "j0", finishedAt := some 1 }, samplePending] :
          List JobRecord).filter (fun r => !ttlExpired 5000 r) ↔
      ({ sampleDone with jobId := "j0", finishedAt := some 1 } ∈
        ([{ sampleDone with jobId := "j0", finishedAt := some 1 }, samplePending] :
          List JobRecord) ∧
       ttlExpired 5000 { sampleDone with jobId := "j0", finishedAt := some 1 } =
         false)) ∧
    (dictFind (cleanupState 5000
        ⟨[{ sampleDone with jobId := "j0", finishedAt := some 1 }, samplePending],
          [], [], []⟩).idx "k1" = some "j1" ↔
      ∃ r ∈ (cleanupState 5000
        ⟨[{ sampleDone with jobId := "j0", finishedAt := some 1 }, samplePending],
          [], [], []⟩).jobs,
        r.idempotencyKey = some "k1" ∧ r.jobId = "j1") :=
  ⟨(retention_algorithm 5000
      ⟨[{ sampleDone with jobId := "j0", finishedAt := some 1 }, samplePending],
        [], [], []⟩
      (by decide)).1 { sampleDone with jobId := "j0", finishedAt := some 1 },
   (retention_algorithm 5000
      ⟨[{ sampleDone with jobId := "j0", finishedAt := some 1 }, samplePending],
        [], [], []⟩
      (by decide)).2.2.2 "k1" "j1" (by decide) (by decide)⟩

end TestPlaye

/-! Claim C8: pagination partitions the ordering. -/

namespace TestPlaye

theorem listJobsAt_clean (now : Nat) (s : ServerState)
    (hclean : cleanupState now s = s) (offset : Nat) :
    listJobsAt now none 1 offset s =
      (s, ((listSeq none s.jobs).drop offset).take 1,
       if offset + 1 < (listSeq none s.jobs).length then some (offset + 1)
       else none) := by
  unfold listJobsAt
  rw [hclean]

theorem flatten_map_singleton {α : Type} (l : List α) :
    (l.map (fun a => [a])).flatten = l := by
  induction l with
  | nil => rfl
  | cons a l ih => simp [ih]

theorem iterPages_eq (now : Nat) (s : ServerState)
    (hclean : cleanupState now s = s) :
    ∀ fuel offset, (listSeq none s.jobs).length ≤ offset + fuel →
      offset < (listSeq none s.jobs).length →
      iterPages now s fuel offset =
        ((listSeq none s.jobs).drop offset).map (fun r => [r]) := by
  intro fuel
  induction fuel with
  | zero =>
    intro offset h1 h2
    omega
  | succ fuel ih =>
    intro offset h1 h2
    simp only [iterPages]
    rw [listJobsAt_clean now s hclean offset]
    have htake1 : ∀ (a : JobRecord) (l : List JobRecord),
        List.take 1 (a :: l) = [a] := fun a l => rfl
    by_cases hlt : offset + 1 < (listSeq none s.jobs).length
    · rw [if_pos hlt]
      simp only []
      rw [ih (offset + 1) (by omega) hlt]
      rw [List.drop_eq_getElem_cons h2, htake1, List.map_cons]
    · rw [if_neg hlt]
      simp only []
      rw [List.drop_eq_getElem_cons h2]
      have hnil : (listSeq none s.jobs).drop (offset + 1) = [] :=
        List.drop_eq_nil_of_le (by omega)
      rw [hnil]
      simp

/-- C8: `List` pagination partitions the `createdAt`-descending ordering.  On
a fixed (retention-stable) store with `N ≥ 2` live records and unique ids,
the full sequence produced by `list_jobs` is a `createdAt`-descending
permutation of the live records; iterating with `limit = 1` from offset 0,
following `nextCursor`, yields exactly the singleton pages of that sequence
in order — pairwise disjoint, concatenating to the full sequence — and the
call at the last offset carries no `nextCursor`. -/
theorem list_pagination_partitions (now : Nat) (s : ServerState)
    (hclean : cleanupState now s = s)
    (hnodup : (s.jobs.map (fun r => r.jobId)).Nodup)
    (hN : 2 ≤ (listSeq none s.jobs).length) :
    iterPages now s (listSeq none s.jobs).length 0 =
      (listSeq none s.jobs).map (fun r => [r]) ∧
    (iterPages now s (listSeq none s.jobs).length 0).flatten =
      listSeq none s.jobs ∧
    List.Pairwise (fun p q0 => ∀ x ∈ p, x ∉ q0)
      (iterPages now s (listSeq none s.jobs).length 0) ∧
    List.Pairwise (fun a b => b.createdAt ≤ a.createdAt) (listSeq none s.jobs) ∧
    (listSeq none s.jobs).Perm s.jobs ∧
    (listJobsAt now none 1 ((listSeq none s.jobs).length - 1) s).2.2 = none := by
  have hmain : iterPages now s (listSeq none s.jobs).length 0 =
      (listSeq none s.jobs).map (fun r => [r]) := by
    have := iterPages_eq now s hclean (listSeq none s.jobs).length 0
      (by omega) (by omega)
    simpa using this
  have hperm : (listSeq none s.jobs).Perm s.jobs := by
    show ((s.jobs.mergeSort (fun a b => Nat.ble b.createdAt a.createdAt))).Perm s.jobs
    exact List.mergeSort_perm s.jobs _
  have hnd : (listSeq none s.jobs).Nodup :=
    (hperm.symm).nodup (List.Nodup.of_map _ hnodup)
  refine ⟨hmain, ?_, ?_, ?_, hperm, ?_⟩
  · rw [hmain]
    exact flatten_map_singleton _
  · rw [hmain]
    rw [List.pairwise_map]
    refine List.Pairwise.imp ?_ hnd
    intro a b hne
    simp [hne]
  · show List.Pairwise (fun a b => b.createdAt ≤ a.createdAt)
      (s.jobs.mergeSort (fun a b => Nat.ble b.createdAt a.createdAt))
    have hs := @List.sorted_mergeSort JobRecord
      (fun a b => Nat.ble b.createdAt a.createdAt)
      (by
        intro a b c hab hbc
        rw [Nat.ble_eq] at hab hbc ⊢
        omega)
      (by
        intro a b
        rcases Nat.le_total b.createdAt a.createdAt with h | h <;>
          simp [Nat.ble_eq, h])
      s.jobs
    refine List.Pairwise.imp ?_ hs
    intro a b hab
    rw [Nat.ble_eq] at hab
    exact hab
  · rw [listJobsAt_clean now s hclean]
    rw [if_neg (by omega)]

/-- Witness for C8 at a concrete clean two-record store. -/
theorem list_pagination_partitions_witness :
    cleanupState 20 pageState = pageState ∧
    (pageState.jobs.map (fun r => r.jobId)).Nodup ∧
    2 ≤ (listSeq none pageState.jobs).length ∧
    (iterPages 20 pageState (listSeq none pageState.jobs).length 0 =
      (listSeq none pageState.jobs).map (fun r => [r]) ∧
    (iterPages 20 pageState (listSeq none pageState.jobs).length 0).flatten =
      listSeq none pageState.jobs ∧
    List.Pairwise (fun p q0 => ∀ x ∈ p, x ∉ q0)
      (iterPages 20 pageState (listSeq none pageState.jobs).length 0) ∧
    List.Pairwise (fun a b => b.createdAt ≤ a.createdAt)
      (listSeq none pageState.jobs) ∧
    (listSeq none pageState.jobs).Perm pageState.jobs ∧
    (listJobsAt 20 none 1 ((listSeq none pageState.jobs).length - 1)
        pageState).2.2 = none) :=
  ⟨by decide, by decide,
   by
     rw [show listSeq none pageState.jobs = pageState.jobs from
       List.mergeSort_of_sorted (by decide)]
     decide,
   list_pagination_partitions 20 pageState (by decide) (by decide)
     (by
       rw [show listSeq none pageState.jobs = pageState.jobs from
         List.mergeSort_of_sorted (by decide)]
       decide)⟩

end TestPlaye

/-! Infrastructure for claim C7: shapes of the atomic sections. -/

namespace TestPlaye

theorem jobsFind_append (l1 l2 : List JobRecord) (jid : String) :
    jobsFind (l1 ++ l2) jid = (jobsFind l1 jid).or (jobsFind l2 jid) := by
  unfold jobsFind
  exact List.find?_append

theorem find_unique {jobs : List JobRecord}
    (hnd : (jobs.map (fun r => r.jobId)).Nodup) {jid : String} {r r2 : JobRecord}
    (hfind : jobsFind jobs jid = some r) (h2 : r2 ∈ jobs) (hid : r2.jobId = jid) :
    r2 = r := by
  have h := jobsFind_of_mem_nodup hnd h2
  rw [hid, hfind] at h
  exact (Option.some.inj h).symm

theorem wf_cleanup {s : ServerState} (now : Nat) (hwf : StateWF s) :
    StateWF (cleanupState now s) := by
  refine ⟨?_, ?_, ?_, ?_, ?_, ?_, ?_⟩
  · exact nodup_ids_cleanupJobs hwf.nodupIds
  · intro r hr
    exact hwf.recordsWF r (mem_of_mem_cleanupJobs hr)
  · exact hwf.tasksNodup
  · exact hwf.runningNodup
  · exact hwf.tasksRunningDisjoint
  · intro jid hjid r hfind
    exact hwf.tasksStatus jid hjid r (jobsFind_cleanup hwf.nodupIds hfind)
  · intro jid hjid r hfind
    exact hwf.runningStatus jid hjid r (jobsFind_cleanup hwf.nodupIds hfind)

theorem wf_eraseTask {s : ServerState} (jid0 : String) (hwf : StateWF s) :
    StateWF { s with tasks := s.tasks.erase jid0 } := by
  refine ⟨hwf.nodupIds, hwf.recordsWF, hwf.tasksNodup.erase jid0, hwf.runningNodup,
    ?_, ?_, hwf.runningStatus⟩
  · intro jid hjid
    exact hwf.tasksRunningDisjoint jid (List.mem_of_mem_erase hjid)
  · intro jid hjid r hfind
    exact hwf.tasksStatus jid (List.mem_of_mem_erase hjid) r hfind

theorem createJob_state_cases (now : Nat) (newId : String) (p : JobCreateRequest)
    (s : ServerState) :
    (createJob now newId p s).state = s ∨
    (createJob now newId p s).state = cleanupState now s ∨
    (createJob now newId p s).state =
      { jobs := (cleanupState now s).jobs ++ [newJobRecord now newId p],
        idx := registerIdem p newId (cleanupState now s).idx,
        tasks := (cleanupState now s).tasks ++ [newId],
        running := (cleanupState now s).running } := by
  unfold createJob
  by_cases htask : p.task ≠ "detect-objects"
  · rw [if_pos htask]
    exact Or.inl rfl
  · rw [if_neg htask]
    cases hrep : replayLookup p (cleanupState now s)
    · exact Or.inr (Or.inr rfl)
    · exact Or.inr (Or.inl rfl)

theorem cancelJob_state_cases (now : Nat) (jid0 : String) (s : ServerState) :
    (cancelJob now jid0 s).1 = cleanupState now s ∨
    ∃ r, jobsFind (cleanupState now s).jobs jid0 = some r ∧
      (r.status = .pending ∨ r.status = .running) ∧
      (cancelJob now jid0 s).1 =
        { cleanupState now s with
          jobs := (jobsUpdate (cleanupState now s).jobs jid0
            (markJobFinished now .canceled (some "job canceled by user"))) } := by
  unfold cancelJob
  cases hfind : jobsFind (cleanupState now s).jobs jid0 with
  | none => exact Or.inl rfl
  | some r =>
    dsimp only
    by_cases hterm : r.status = .done ∨ r.status = .failed ∨ r.status = .timeout
    · rw [if_pos hterm]
      exact Or.inl rfl
    · rw [if_neg hterm]
      by_cases hc : r.status ≠ .canceled
      · rw [if_pos hc]
        refine Or.inr ⟨r, rfl, ?_, rfl⟩
        cases hst : r.status <;> simp [hst] at hterm hc ⊢
      · rw [if_neg hc]
        exact Or.inl rfl

theorem processJobPhase1_eq (now : Nat) (jid0 : String) (s : ServerState) :
    (jobsFind (cleanupState now s).jobs jid0 = none →
      processJobPhase1 now jid0 s = (cleanupState now s, false)) ∧
    (∀ r, jobsFind (cleanupState now s).jobs jid0 = some r →
      (r.status = .canceled →
        processJobPhase1 now jid0 s = (cleanupState now s, false)) ∧
      (r.status ≠ .canceled →
        processJobPhase1 now jid0 s =
          ({ cleanupState now s with
              jobs := (jobsUpdate (cleanupState now s).jobs jid0
                (fun r0 => { r0 with status := .running, startedAt := some now })) },
           true))) := by
  constructor
  · intro hfind
    unfold processJobPhase1
    rw [hfind]
  · intro r hfind
    constructor
    · intro hc
      unfold processJobPhase1
      rw [hfind]
      dsimp only
      rw [if_pos hc]
    · intro hc
      unfold processJobPhase1
      rw [hfind]
      dsimp only
      rw [if_neg hc]

theorem stepPhase1_cases (now : Nat) (jid0 : String) (s : ServerState) :
    stepPhase1 now jid0 s =
      cleanupState now { s with tasks := s.tasks.erase jid0 } ∨
    ∃ r, jobsFind
        (cleanupState now { s with tasks := s.tasks.erase jid0 }).jobs jid0 =
          some r ∧
      r.status ≠ .canceled ∧
      stepPhase1 now jid0 s =
        { cleanupState now { s with tasks := s.tasks.erase jid0 } with
          jobs := (jobsUpdate
            (cleanupState now { s with tasks := s.tasks.erase jid0 }).jobs jid0
            (fun r0 => { r0 with status := .running, startedAt := some now })),
          running :=
            (cleanupState now { s with tasks := s.tasks.erase jid0 }).running
              ++ [jid0] } := by
  cases hf : jobsFind
      (cleanupState now { s with tasks := s.tasks.erase jid0 }).jobs jid0 with
  | none =>
    left
    have h := (processJobPhase1_eq now jid0 { s with tasks := s.tasks.erase jid0 }).1 hf
    unfold stepPhase1
    rw [h]
    rfl
  | some r =>
    by_cases hc : r.status = .canceled
    · left
      have h := ((processJobPhase1_eq now jid0
        { s with tasks := s.tasks.erase jid0 }).2 r hf).1 hc
      unfold stepPhase1
      rw [h]
      rfl
    · right
      refine ⟨r, rfl, hc, ?_⟩
      have h := ((processJobPhase1_eq now jid0
        { s with tasks := s.tasks.erase jid0 }).2 r hf).2 hc
      unfold stepPhase1
      rw [h]
      rfl

theorem processJobPhase2_eq (now : Nat) (jid0 : String) (outcome : ExecOutcome)
    (elapsed : ℚ) (s : ServerState) :
    (jobsFind s.jobs jid0 = none →
      processJobPhase2 now jid0 outcome elapsed s = s) ∧
    (∀ r, jobsFind s.jobs jid0 = some r →
      (r.status = .canceled → processJobPhase2 now jid0 outcome elapsed s = s) ∧
      (r.status ≠ .canceled →
        (∀ res, outcome = .ok res → JOB_RUN_TIMEOUT_SECONDS < elapsed →
          processJobPhase2 now jid0 outcome elapsed s =
            { s with jobs := (jobsUpdate s.jobs jid0 (markJobFinished now .timeout
                (some "job exceeded processing timeout"))) }) ∧
        (∀ res, outcome = .ok res → ¬JOB_RUN_TIMEOUT_SECONDS < elapsed →
          processJobPhase2 now jid0 outcome elapsed s =
            { s with jobs := (jobsUpdate s.jobs jid0
                (fun r0 => { r0 with
                             status := JobStatus.done
                             finishedAt := some now
                             result := some res })) }) ∧
        (∀ msg, outcome = .raised msg →
          processJobPhase2 now jid0 outcome elapsed s =
            { s with jobs := (jobsUpdate s.jobs jid0
                (markJobFinished now .failed (some msg))) }))) := by
  constructor
  · intro hfind
    cases outcome <;> (unfold processJobPhase2; rw [hfind])
  · intro r hfind
    constructor
    · intro hc
      cases outcome with
      | ok res =>
        unfold processJobPhase2
        rw [hfind]
        dsimp only
        rw [if_pos hc]
      | raised msg =>
        unfold processJobPhase2
        rw [hfind]
        dsimp only
        rw [if_pos hc]
    · intro hc
      refine ⟨?_, ?_, ?_⟩
      · rintro res rfl hel
        unfold processJobPhase2
        rw [hfind]
        dsimp only
        rw [if_neg hc, if_pos hel]
      · rintro res rfl hel
        unfold processJobPhase2
        rw [hfind]
        dsimp only
        rw [if_neg hc, if_neg hel]
      · rintro msg rfl
        unfold processJobPhase2
        rw [hfind]
        dsimp only
        rw [if_neg hc]

theorem stepPhase2_cases (now : Nat) (jid0 : String) (outcome : ExecOutcome)
    (elapsed : ℚ) (s : ServerState) :
    stepPhase2 now jid0 outcome elapsed s =
      { s with running := s.running.erase jid0 } ∨
    ∃ r, jobsFind s.jobs jid0 = some r ∧ r.status ≠ .canceled ∧
      ∃ f, ((∃ res, f = (fun r0 => ({ r0 with
                    status := JobStatus.done
                    finishedAt := some now
                    result := some res } : JobRecord))) ∨
            f = markJobFinished now .timeout (some "job exceeded processing timeout") ∨
            (∃ msg, f = markJobFinished now .failed (some msg))) ∧
        stepPhase2 now jid0 outcome elapsed s =
          { s with jobs := jobsUpdate s.jobs jid0 f,
                   running := s.running.erase jid0 } := by
  have hfeq : ({ s with running := s.running.erase jid0 } : ServerState).jobs =
      s.jobs := rfl
  cases hf : jobsFind s.jobs jid0 with
  | none =>
    left
    have h := (processJobPhase2_eq now jid0 outcome elapsed
      { s with running := s.running.erase jid0 }).1 (by rw [hfeq]; exact hf)
    unfold stepPhase2
    rw [h]
  | some r =>
    by_cases hc : r.status = .canceled
    · left
      have h := ((processJobPhase2_eq now jid0 outcome elapsed
        { s with running := s.running.erase jid0 }).2 r (by rw [hfeq]; exact hf)).1 hc
      unfold stepPhase2
      rw [h]
    · right
      refine ⟨r, rfl, hc, ?_⟩
      have hmain := ((processJobPhase2_eq now jid0 outcome elapsed
        { s with running := s.running.erase jid0 }).2 r (by rw [hfeq]; exact hf)).2 hc
      cases outcome with
      | ok res =>
        by_cases hel : JOB_RUN_TIMEOUT_SECONDS < elapsed
        · refine ⟨markJobFinished now .timeout (some "job exceeded processing timeout"),
            Or.inr (Or.inl rfl), ?_⟩
          have h := hmain.1 res rfl hel
          unfold stepPhase2
          rw [h]
        · refine ⟨(fun r0 => ({ r0 with
              status := JobStatus.done
              finishedAt := some now
              result := some res } : JobRecord)), Or.inl ⟨res, rfl⟩, ?_⟩
          have h := hmain.2.1 res rfl hel
          unfold stepPhase2
          rw [h]
      | raised msg =>
        refine ⟨markJobFinished now .failed (some msg),
          Or.inr (Or.inr ⟨msg, rfl⟩), ?_⟩
        have h := hmain.2.2 msg rfl
        unfold stepPhase2
        rw [h]

end TestPlaye

/-! Well-formedness preservation for claim C7. -/

namespace TestPlaye

theorem recordWF_mark (now : Nat) (st : JobStatus) (msg : String) (r : JobRecord)
    (hst : st = .failed ∨ st = .canceled ∨ st = .timeout)
    (hres : r.result = none) :
    recordWF (markJobFinished now st (some msg) r) := by
  rcases hst with he | he | he <;> subst he <;>
    refine ⟨?_, ?_, ?_, fun _ => ⟨?_, ?_, ?_⟩⟩ <;>
      first
        | (intro h; exact absurd h (by simp [markJobFinished]))
        | simpa [markJobFinished] using hres
        | simp [markJobFinished]

theorem recordWF_done (now : Nat) (res : DetectResponse) (r : JobRecord)
    (herr : r.error = none) :
    recordWF { r with
               status := JobStatus.done
               finishedAt := some now
               result := some res } := by
  refine ⟨?_, ?_, fun _ => ⟨?_, ?_⟩, ?_⟩
  · intro h
    exact absurd h (by simp)
  · intro h
    exact absurd h (by simp)
  · simpa using herr
  · simp
  · intro h
    rcases h with h | h | h <;> exact absurd h (by simp)

theorem recordWF_run (now : Nat) (r : JobRecord) (h : recordWF r)
    (hp : r.status = .pending) :
    recordWF { r with status := JobStatus.running, startedAt := some now } := by
  have h1 := h.1 hp
  refine ⟨?_, fun _ => ⟨?_, ?_, ?_⟩, ?_, ?_⟩
  · intro hh
    exact absurd hh (by simp)
  · simpa using h1.2.1
  · simpa using h1.2.2.1
  · simpa using h1.2.2.2
  · intro hh
    exact absurd hh (by simp)
  · intro hh
    rcases hh with hh | hh | hh <;> exact absurd hh (by simp)

theorem recordWF_new (now : Nat) (newId : String) (p : JobCreateRequest) :
    recordWF (newJobRecord now newId p) := by
  refine ⟨fun _ => ⟨?_, ?_, ?_, ?_⟩, ?_, ?_, ?_⟩
  · rfl
  · rfl
  · rfl
  · rfl
  · intro h
    exact absurd h (by simp [newJobRecord])
  · intro h
    exact absurd h (by simp [newJobRecord])
  · intro h
    rcases h with h | h | h <;> exact absurd h (by simp [newJobRecord])

theorem wf_eraseRunning {s : ServerState} (jid0 : String) (hwf : StateWF s) :
    StateWF { s with running := s.running.erase jid0 } := by
  refine ⟨hwf.nodupIds, hwf.recordsWF, hwf.tasksNodup, hwf.runningNodup.erase jid0,
    ?_, hwf.tasksStatus, ?_⟩
  · intro jid hjid hmem
    exact hwf.tasksRunningDisjoint jid hjid (List.mem_of_mem_erase hmem)
  · intro jid hjid r hfind
    exact hwf.runningStatus jid (List.mem_of_mem_erase hjid) r hfind

theorem wf_cancel {s : ServerState} (now : Nat) (jid0 : String) (hwf : StateWF s) :
    StateWF (cancelJob now jid0 s).1 := by
  rcases cancelJob_state_cases now jid0 s with heq | ⟨r, hfind, hpr, heq⟩
  · rw [heq]
    exact wf_cleanup now hwf
  · rw [heq]
    have hwf1 := wf_cleanup now hwf
    have hfid : ∀ r0 : JobRecord,
        (markJobFinished now .canceled (some "job canceled by user") r0).jobId =
          r0.jobId := fun r0 => rfl
    have hrwf : recordWF r := hwf1.recordsWF r (jobsFind_spec hfind).1
    have hres : r.result = none := by
      rcases hpr with h | h
      · exact (hrwf.1 h).2.2.2
      · exact (hrwf.2.1 h).2.2
    refine ⟨?_, ?_, hwf1.tasksNodup, hwf1.runningNodup, hwf1.tasksRunningDisjoint,
      ?_, ?_⟩
    · show ((jobsUpdate (cleanupState now s).jobs jid0 _).map
        (fun r => r.jobId)).Nodup
      rw [jobsUpdate_map_jobId hfid]
      exact hwf1.nodupIds
    · intro r' hr'
      rcases List.mem_map.mp hr' with ⟨r2, hr2, hr2eq⟩
      by_cases hid : r2.jobId = jid0
      · have he : r2 = r := find_unique hwf1.nodupIds hfind hr2 hid
        subst he
        rw [← hr2eq, if_pos (by simp [hid])]
        exact recordWF_mark now .canceled "job canceled by user" r2
          (Or.inr (Or.inl rfl)) hres
      · rw [← hr2eq, if_neg (by simp [hid])]
        exact hwf1.recordsWF r2 hr2
    · intro jid hjid r3 hfind3
      rw [jobsFind_update hfid jid] at hfind3
      cases hf4 : jobsFind (cleanupState now s).jobs jid with
      | none =>
        rw [hf4] at hfind3
        cases hfind3
      | some r4 =>
        rw [hf4] at hfind3
        simp only [Option.map_some'] at hfind3
        injection hfind3 with hfind3
        by_cases hid : r4.jobId = jid0
        · rw [if_pos (by simp [hid])] at hfind3
          rw [← hfind3]
          right
          rfl
        · rw [if_neg (by simp [hid])] at hfind3
          rw [← hfind3]
          exact hwf1.tasksStatus jid hjid r4 hf4
    · intro jid hjid r3 hfind3
      rw [jobsFind_update hfid jid] at hfind3
      cases hf4 : jobsFind (cleanupState now s).jobs jid with
      | none =>
        rw [hf4] at hfind3
        cases hfind3
      | some r4 =>
        rw [hf4] at hfind3
        simp only [Option.map_some'] at hfind3
        injection hfind3 with hfind3
        by_cases hid : r4.jobId = jid0
        · rw [if_pos (by simp [hid])] at hfind3
          rw [← hfind3]
          right
          rfl
        · rw [if_neg (by simp [hid])] at hfind3
          rw [← hfind3]
          exact hwf1.runningStatus jid hjid r4 hf4

theorem wf_create {s : ServerState} (now : Nat) (newId : String)
    (p : JobCreateRequest) (hwf : StateWF s)
    (hjobs : ∀ r ∈ s.jobs, r.jobId ≠ newId)
    (htasks : newId ∉ s.tasks) (hrunning : newId ∉ s.running) :
    StateWF (createJob now newId p s).state := by
  rcases createJob_state_cases now newId p s with heq | heq | heq
  · rw [heq]
    exact hwf
  · rw [heq]
    exact wf_cleanup now hwf
  · rw [heq]
    have hwf1 := wf_cleanup now hwf
    have hfindrec : jobsFind [newJobRecord now newId p] newId =
        some (newJobRecord now newId p) := by
      unfold jobsFind newJobRecord
      simp [List.find?]
    refine ⟨?_, ?_, ?_, hwf1.runningNodup, ?_, ?_, ?_⟩
    · rw [List.map_append, List.nodup_append]
      refine ⟨hwf1.nodupIds, by simp, ?_⟩
      intro a ha hb
      rcases List.mem_map.mp ha with ⟨r0, hr0, hr0eq⟩
      have hanew : a = newId := by simpa [newJobRecord] using hb
      subst hanew
      exact hjobs r0 (mem_of_mem_cleanupJobs hr0) hr0eq
    · intro r hr
      rcases List.mem_append.mp hr with h | h
      · exact hwf1.recordsWF r h
      · have he : r = newJobRecord now newId p := by simpa using h
        rw [he]
        exact recordWF_new now newId p
    · refine List.nodup_append.mpr ⟨hwf1.tasksNodup, by simp, ?_⟩
      intro a ha hb
      have hanew : a = newId := by simpa using hb
      subst hanew
      exact htasks ha
    · intro jid hjid
      rcases List.mem_append.mp hjid with h | h
      · exact hwf1.tasksRunningDisjoint jid h
      · have hjnew : jid = newId := by simpa using h
        subst hjnew
        exact hrunning
    · intro jid hjid r3 hfind3
      rw [jobsFind_append] at hfind3
      rcases List.mem_append.mp hjid with hj | hj
      · have hne : jid ≠ newId := fun he => htasks (he ▸ hj)
        cases hf1 : jobsFind (cleanupState now s).jobs jid with
        | some r4 =>
          rw [hf1] at hfind3
          have h34 : r4 = r3 := Option.some.inj hfind3
          rw [← h34]
          exact hwf1.tasksStatus jid hj r4 hf1
        | none =>
          rw [hf1] at hfind3
          simp only [Option.none_or] at hfind3
          exfalso
          have hmem3 := List.mem_of_find?_eq_some hfind3
          have h3 : r3 = newJobRecord now newId p := by simpa using hmem3
          have hpred := List.find?_some hfind3
          rw [h3] at hpred
          simp only [newJobRecord, beq_iff_eq] at hpred
          exact hne hpred.symm
      · have hjnew : jid = newId := by simpa using hj
        subst hjnew
        cases hf1 : jobsFind (cleanupState now s).jobs jid with
        | some r4 =>
          exfalso
          exact hjobs r4 (mem_of_mem_cleanupJobs (jobsFind_spec hf1).1)
            (jobsFind_spec hf1).2
        | none =>
          rw [hf1] at hfind3
          simp only [Option.none_or] at hfind3
          have hmem3 := List.mem_of_find?_eq_some hfind3
          have h3 : r3 = newJobRecord now jid p := by simpa using hmem3
          rw [h3]
          left
          rfl
    · intro jid hjid r3 hfind3
      rw [jobsFind_append] at hfind3
      have hne : jid ≠ newId := fun he => hrunning (he ▸ hjid)
      cases hf1 : jobsFind (cleanupState now s).jobs jid with
      | some r4 =>
        rw [hf1] at hfind3
        have h34 : r4 = r3 := Option.some.inj hfind3
        rw [← h34]
        exact hwf1.runningStatus jid hjid r4 hf1
      | none =>
        rw [hf1] at hfind3
        simp only [Option.none_or] at hfind3
        exfalso
        have hmem3 := List.mem_of_find?_eq_some hfind3
        have h3 : r3 = newJobRecord now newId p := by simpa using hmem3
        have hpred := List.find?_some hfind3
        rw [h3] at hpred
        simp only [newJobRecord, beq_iff_eq] at hpred
        exact hne hpred.symm

end TestPlaye

namespace TestPlaye

theorem wf_phase1 {s : ServerState} (now : Nat) (jid0 : String) (hwf : StateWF s)
    (hmem : jid0 ∈ s.tasks) : StateWF (stepPhase1 now jid0 s) := by
  rcases stepPhase1_cases now jid0 s with heq | ⟨r, hfind, hc, heq⟩
  · rw [heq]
    exact wf_cleanup now (wf_eraseTask jid0 hwf)
  · rw [heq]
    have hwf1 : StateWF (cleanupState now { s with tasks := s.tasks.erase jid0 }) :=
      wf_cleanup now (wf_eraseTask jid0 hwf)
    have hgid : ∀ r0 : JobRecord,
        ({ r0 with
           status := JobStatus.running
           startedAt := some now } : JobRecord).jobId = r0.jobId := fun r0 => rfl
    have hfind_s : jobsFind s.jobs jid0 = some r :=
      jobsFind_cleanup hwf.nodupIds hfind
    have hpend : r.status = .pending := by
      rcases hwf.tasksStatus jid0 hmem r hfind_s with h | h
      · exact h
      · exact absurd h hc
    have hrwf : recordWF r := hwf.recordsWF r (jobsFind_spec hfind_s).1
    refine ⟨?_, ?_, hwf1.tasksNodup, ?_, ?_, ?_, ?_⟩
    · show ((jobsUpdate _ jid0 _).map (fun r => r.jobId)).Nodup
      rw [jobsUpdate_map_jobId hgid]
      exact hwf1.nodupIds
    · intro r' hr'
      rcases List.mem_map.mp hr' with ⟨r2, hr2, hr2eq⟩
      by_cases hid : r2.jobId = jid0
      · have he : r2 = r := find_unique hwf1.nodupIds hfind hr2 hid
        subst he
        rw [← hr2eq, if_pos (by simp [hid])]
        exact recordWF_run now r2 hrwf hpend
      · rw [← hr2eq, if_neg (by simp [hid])]
        exact hwf1.recordsWF r2 hr2
    · show (s.running ++ [jid0]).Nodup
      refine List.nodup_append.mpr ⟨hwf.runningNodup, by simp, ?_⟩
      intro a ha hb
      have hanew : a = jid0 := by simpa using hb
      rw [hanew] at ha
      exact hwf.tasksRunningDisjoint jid0 hmem ha
    · intro jid hjid
      have hjt : jid ∈ s.tasks := List.mem_of_mem_erase hjid
      have hne : jid ≠ jid0 := by
        intro he
        subst he
        exact hwf.tasksNodup.not_mem_erase hjid
      intro hmem2
      rcases List.mem_append.mp hmem2 with h | h
      · exact hwf.tasksRunningDisjoint jid hjt h
      · exact hne (by simpa using h)
    · intro jid hjid r3 hfind3
      have hjt : jid ∈ s.tasks := List.mem_of_mem_erase hjid
      have hne : jid ≠ jid0 := by
        intro he
        subst he
        exact hwf.tasksNodup.not_mem_erase hjid
      rw [jobsFind_update hgid jid] at hfind3
      cases hf4 : jobsFind
          (cleanupState now { s with tasks := s.tasks.erase jid0 }).jobs jid with
      | none =>
        rw [hf4] at hfind3
        cases hfind3
      | some r4 =>
        rw [hf4] at hfind3
        simp only [Option.map_some'] at hfind3
        injection hfind3 with hfind3
        have hid4 : r4.jobId = jid := (jobsFind_spec hf4).2
        rw [if_neg (by simp [hid4, hne])] at hfind3
        rw [← hfind3]
        exact hwf.tasksStatus jid hjt r4 (jobsFind_cleanup hwf.nodupIds hf4)
    · intro jid hjid r3 hfind3
      rw [jobsFind_update hgid jid] at hfind3
      rcases List.mem_append.mp hjid with hj | hj
      · have hne : jid ≠ jid0 := by
          intro he
          subst he
          exact hwf.tasksRunningDisjoint jid hmem hj
        cases hf4 : jobsFind
            (cleanupState now { s with tasks := s.tasks.erase jid0 }).jobs jid with
        | none =>
          rw [hf4] at hfind3
          cases hfind3
        | some r4 =>
          rw [hf4] at hfind3
          simp only [Option.map_some'] at hfind3
          injection hfind3 with hfind3
          have hid4 : r4.jobId = jid := (jobsFind_spec hf4).2
          rw [if_neg (by simp [hid4, hne])] at hfind3
          rw [← hfind3]
          exact hwf.runningStatus jid hj r4 (jobsFind_cleanup hwf.nodupIds hf4)
      · have hjnew : jid = jid0 := by simpa using hj
        rw [hjnew] at hfind3
        rw [hfind] at hfind3
        simp only [Option.map_some'] at hfind3
        injection hfind3 with hfind3
        have hidr : r.jobId = jid0 := (jobsFind_spec hfind).2
        rw [if_pos (by simp [hidr])] at hfind3
        rw [← hfind3]
        left
        rfl

theorem wf_phase2 {s : ServerState} (now : Nat) (jid0 : String)
    (outcome : ExecOutcome) (elapsed : ℚ) (hwf : StateWF s)
    (hmem : jid0 ∈ s.running) :
    StateWF (stepPhase2 now jid0 outcome elapsed s) := by
  rcases stepPhase2_cases now jid0 outcome elapsed s with heq | ⟨r, hfind, hc, f, hforms, heq⟩
  · rw [heq]
    exact wf_eraseRunning jid0 hwf
  · rw [heq]
    have hfid : ∀ r0 : JobRecord, (f r0).jobId = r0.jobId := by
      rcases hforms with ⟨res, hf⟩ | hf | ⟨msg, hf⟩ <;> subst hf <;> exact fun r0 => rfl
    have hrun : r.status = .running := by
      rcases hwf.runningStatus jid0 hmem r hfind with h | h
      · exact h
      · exact absurd h hc
    have hrwf : recordWF r := hwf.recordsWF r (jobsFind_spec hfind).1
    have hfr : recordWF (f r) := by
      have herr : r.error = none := (hrwf.2.1 hrun).2.1
      have hres : r.result = none := (hrwf.2.1 hrun).2.2
      rcases hforms with ⟨res, hf⟩ | hf | ⟨msg, hf⟩ <;> subst hf
      · exact recordWF_done now res r herr
      · exact recordWF_mark now .timeout "job exceeded processing timeout" r
          (Or.inr (Or.inr rfl)) hres
      · exact recordWF_mark now .failed msg r (Or.inl rfl) hres
    refine ⟨?_, ?_, hwf.tasksNodup, hwf.runningNodup.erase jid0, ?_, ?_, ?_⟩
    · show ((jobsUpdate s.jobs jid0 f).map (fun r => r.jobId)).Nodup
      rw [jobsUpdate_map_jobId hfid]
      exact hwf.nodupIds
    · intro r' hr'
      rcases List.mem_map.mp hr' with ⟨r2, hr2, hr2eq⟩
      by_cases hid : r2.jobId = jid0
      · have he : r2 = r := find_unique hwf.nodupIds hfind hr2 hid
        subst he
        rw [← hr2eq, if_pos (by simp [hid])]
        exact hfr
      · rw [← hr2eq, if_neg (by simp [hid])]
        exact hwf.recordsWF r2 hr2
    · intro jid hjid hmem2
      exact hwf.tasksRunningDisjoint jid hjid (List.mem_of_mem_erase hmem2)
    · intro jid hjid r3 hfind3
      have hne : jid ≠ jid0 := by
        intro he
        subst he
        exact hwf.tasksRunningDisjoint jid hjid hmem
      rw [jobsFind_update hfid jid] at hfind3
      cases hf4 : jobsFind s.jobs jid with
      | none =>
        rw [hf4] at hfind3
        cases hfind3
      | some r4 =>
        rw [hf4] at hfind3
        simp only [Option.map_some'] at hfind3
        injection hfind3 with hfind3
        have hid4 : r4.jobId = jid := (jobsFind_spec hf4).2
        rw [if_neg (by simp [hid4, hne])] at hfind3
        rw [← hfind3]
        exact hwf.tasksStatus jid hjid r4 hf4
    · intro jid hjid r3 hfind3
      have hjr : jid ∈ s.running := List.mem_of_mem_erase hjid
      have hne : jid ≠ jid0 := by
        intro he
        subst he
        exact hwf.runningNodup.not_mem_erase hjid
      rw [jobsFind_update hfid jid] at hfind3
      cases hf4 : jobsFind s.jobs jid with
      | none =>
        rw [hf4] at hfind3
        cases hfind3
      | some r4 =>
        rw [hf4] at hfind3
        simp only [Option.map_some'] at hfind3
        injection hfind3 with hfind3
        have hid4 : r4.jobId = jid := (jobsFind_spec hf4).2
        rw [if_neg (by simp [hid4, hne])] at hfind3
        rw [← hfind3]
        exact hwf.runningStatus jid hjr r4 hf4

theorem wf_step {s s' : ServerState} (hwf : StateWF s) (hstep : Step s s') :
    StateWF s' := by
  cases hstep with
  | create now newId p hjobs htasks hrunning =>
    exact wf_create now newId p hwf hjobs htasks hrunning
  | cancel now jid => exact wf_cancel now jid hwf
  | phase1 now jid hmem => exact wf_phase1 now jid hwf hmem
  | phase2 now jid outcome elapsed hmem =>
    exact wf_phase2 now jid outcome elapsed hwf hmem
  | readOp now => exact wf_cleanup now hwf

theorem wf_init : StateWF initState := by
  refine ⟨?_, ?_, ?_, ?_, ?_, ?_, ?_⟩ <;> simp [initState, jobsFind]

theorem wf_reachable {s : ServerState} (hreach : Reachable s) : StateWF s := by
  induction hreach with
  | init => exact wf_init
  | step hr hs ih => exact wf_step ih hs

end TestPlaye

/-! Claim C7: the record state machine. -/

namespace TestPlaye

theorem step_edges {s s' : ServerState} (hwf : StateWF s) (hstep : Step s s') :
    ∀ r ∈ s.jobs, ∀ r' ∈ s'.jobs, r.jobId = r'.jobId →
      statusEdge r.status r'.status := by
  cases hstep with
  | readOp now =>
    intro r hr r' hr' hid
    have hr's : r' ∈ s.jobs := mem_of_mem_cleanupJobs hr'
    have he : r = r' := mem_eq_of_nodup_ids hwf.nodupIds hr hr's hid
    rw [he]
    exact Or.inl rfl
  | create now newId p hjobs htasks hrunning =>
    intro r hr r' hr' hid
    rcases createJob_state_cases now newId p s with heq | heq | heq <;> rw [heq] at hr'
    · have he : r = r' := mem_eq_of_nodup_ids hwf.nodupIds hr hr' hid
      rw [he]
      exact Or.inl rfl
    · have hr's : r' ∈ s.jobs := mem_of_mem_cleanupJobs hr'
      have he := mem_eq_of_nodup_ids hwf.nodupIds hr hr's hid
      rw [he]
      exact Or.inl rfl
    · rcases List.mem_append.mp hr' with h | h
      · have hr's : r' ∈ s.jobs := mem_of_mem_cleanupJobs h
        have he := mem_eq_of_nodup_ids hwf.nodupIds hr hr's hid
        rw [he]
        exact Or.inl rfl
      · exfalso
        have he : r' = newJobRecord now newId p := by simpa using h
        apply hjobs r hr
        rw [hid, he]
        rfl
  | cancel now jid0 =>
    intro r hr r' hr' hid
    rcases cancelJob_state_cases now jid0 s with heq | ⟨r0, hfind, hpr, heq⟩ <;>
      rw [heq] at hr'
    · have hr's := mem_of_mem_cleanupJobs hr'
      have he := mem_eq_of_nodup_ids hwf.nodupIds hr hr's hid
      rw [he]
      exact Or.inl rfl
    · rcases List.mem_map.mp hr' with ⟨r2, hr2, hr2eq⟩
      have hr2s : r2 ∈ s.jobs := mem_of_mem_cleanupJobs hr2
      by_cases hid2 : r2.jobId = jid0
      · have he2 : r2 = r0 :=
          find_unique (nodup_ids_cleanupJobs hwf.nodupIds) hfind hr2 hid2
        have hr'eq : r' =
            markJobFinished now .canceled (some "job canceled by user") r0 := by
          rw [← hr2eq, if_pos (by simp [hid2]), he2]
        have hr0s : r0 ∈ s.jobs := mem_of_mem_cleanupJobs (jobsFind_spec hfind).1
        have her : r = r0 := mem_eq_of_nodup_ids hwf.nodupIds hr hr0s
          (by rw [hid, hr'eq]; rfl)
        rw [her, hr'eq]
        right
        right
        right
        exact ⟨hpr, rfl⟩
      · have he : r2 = r' := by
          rw [← hr2eq, if_neg (by simp [hid2])]
        have her : r = r2 := mem_eq_of_nodup_ids hwf.nodupIds hr hr2s
          (by rw [hid, ← he])
        rw [her, he]
        exact Or.inl rfl
  | phase1 now jid0 hmem =>
    intro r hr r' hr' hid
    rcases stepPhase1_cases now jid0 s with heq | ⟨r0, hfind, hc, heq⟩ <;>
      rw [heq] at hr'
    · have hr's : r' ∈ s.jobs := mem_of_mem_cleanupJobs hr'
      have he := mem_eq_of_nodup_ids hwf.nodupIds hr hr's hid
      rw [he]
      exact Or.inl rfl
    · rcases List.mem_map.mp hr' with ⟨r2, hr2, hr2eq⟩
      have hr2s : r2 ∈ s.jobs := mem_of_mem_cleanupJobs hr2
      have hfind_s : jobsFind s.jobs jid0 = some r0 :=
        jobsFind_cleanup hwf.nodupIds hfind
      have hpend : r0.status = .pending := by
        rcases hwf.tasksStatus jid0 hmem r0 hfind_s with h | h
        · exact h
        · exact absurd h hc
      by_cases hid2 : r2.jobId = jid0
      · have he2 : r2 = r0 :=
          find_unique (nodup_ids_cleanupJobs hwf.nodupIds) hfind hr2 hid2
        have hr'eq : r' =
            { r0 with status := JobStatus.running, startedAt := some now } := by
          rw [← hr2eq, if_pos (by simp [hid2]), he2]
        have hr0s : r0 ∈ s.jobs := (jobsFind_spec hfind_s).1
        have her : r = r0 := mem_eq_of_nodup_ids hwf.nodupIds hr hr0s
          (by rw [hid, hr'eq])
        rw [her, hr'eq]
        right
        left
        exact ⟨hpend, rfl⟩
      · have he : r2 = r' := by
          rw [← hr2eq, if_neg (by simp [hid2])]
        have her : r = r2 := mem_eq_of_nodup_ids hwf.nodupIds hr hr2s
          (by rw [hid, ← he])
        rw [her, he]
        exact Or.inl rfl
  | phase2 now jid0 outcome elapsed hmem =>
    intro r hr r' hr' hid
    rcases stepPhase2_cases now jid0 outcome elapsed s with
      heq | ⟨r0, hfind, hc, f, hforms, heq⟩ <;> rw [heq] at hr'
    · have he := mem_eq_of_nodup_ids hwf.nodupIds hr hr' hid
      rw [he]
      exact Or.inl rfl
    · rcases List.mem_map.mp hr' with ⟨r2, hr2, hr2eq⟩
      have hrun : r0.status = .running := by
        rcases hwf.runningStatus jid0 hmem r0 hfind with h | h
        · exact h
        · exact absurd h hc
      have hfid : ∀ r3 : JobRecord, (f r3).jobId = r3.jobId := by
        rcases hforms with ⟨res, hf⟩ | hf | ⟨msg, hf⟩ <;> subst hf <;>
          exact fun r3 => rfl
      by_cases hid2 : r2.jobId = jid0
      · have he2 : r2 = r0 := find_unique hwf.nodupIds hfind hr2 hid2
        have hr'eq : r' = f r0 := by
          rw [← hr2eq, if_pos (by simp [hid2]), he2]
        have hr0s : r0 ∈ s.jobs := (jobsFind_spec hfind).1
        have her : r = r0 := mem_eq_of_nodup_ids hwf.nodupIds hr hr0s
          (by rw [hid, hr'eq, hfid r0])
        rw [her, hr'eq]
        rcases hforms with ⟨res, hf⟩ | hf | ⟨msg, hf⟩ <;> subst hf
        · right
          right
          left
          exact ⟨hrun, Or.inl rfl⟩
        · right
          right
          left
          exact ⟨hrun, Or.inr (Or.inr rfl)⟩
        · right
          right
          left
          exact ⟨hrun, Or.inr (Or.inl rfl)⟩
      · have he : r2 = r' := by
          rw [← hr2eq, if_neg (by simp [hid2])]
        have her : r = r2 := mem_eq_of_nodup_ids hwf.nodupIds hr hr2
          (by rw [hid, ← he])
        rw [her, he]
        exact Or.inl rfl

/-- C7: reachable-state record invariants and the status state machine.  In
every reachable state each record is well-formed (`recordWF`: `startedAt`
unset while `Pending`; `finishedAt` unset while `Pending`/`Running`; result
populated exactly when `Done`, error exactly when `Failed`/`Canceled`/
`TimedOut`, never both, only after a terminal transition), and across any
atomic step a record's status either stays put or moves along an edge of
`Pending→Running`, `Running→{Done, Failed, TimedOut}`,
`Pending/Running→Canceled`; in particular a terminal status never changes. -/
theorem record_state_machine (s s' : ServerState) (hreach : Reachable s)
    (hstep : Step s s') :
    (∀ r ∈ s.jobs, recordWF r) ∧
    (∀ r ∈ s.jobs, ∀ r' ∈ s'.jobs, r.jobId = r'.jobId →
      statusEdge r.status r'.status ∧
      (r.status.isTerminal = true → r'.status = r.status)) := by
  have hwf := wf_reachable hreach
  refine ⟨hwf.recordsWF, ?_⟩
  intro r hr r' hr' hid
  have hedge := step_edges hwf hstep r hr r' hr' hid
  refine ⟨hedge, ?_⟩
  intro hterm
  rcases hedge with h | h | h | h
  · exact h.symm
  · rw [h.1] at hterm
    exact absurd hterm (by decide)
  · rw [h.1] at hterm
    exact absurd hterm (by decide)
  · rcases h.1 with h1 | h1 <;> rw [h1] at hterm <;>
      exact absurd hterm (by decide)

/-- Witness for C7: instantiates the state-machine theorem at the reachable
one-record state `oneJobState` and the background step that marks its pending
job `running`; the first conjunct records that the job store is non-empty, so
the record-level quantifiers of the instance range over a singleton. -/
theorem record_state_machine_witness :
    oneJobState.jobs.length = 1 ∧
    ((∀ r ∈ oneJobState.jobs, recordWF r) ∧
     (∀ r ∈ oneJobState.jobs, ∀ r' ∈ (stepPhase1 1 "w7" oneJobState).jobs,
       r.jobId = r'.jobId →
       statusEdge r.status r'.status ∧
       (r.status.isTerminal = true → r'.status = r.status))) :=
  ⟨rfl,
   record_state_machine oneJobState (stepPhase1 1 "w7" oneJobState)
     (Reachable.step Reachable.init
       (Step.create initState 0 "w7" witnessRequest
         (by intro r hr; simp [initState] at hr)
         (by simp [initState]) (by simp [initState])))
     (Step.phase1 oneJobState 1 "w7"
       (by show "w7" ∈ ("w7" :: ([] : List String)); exact List.Mem.head _))⟩

end TestPlaye
